import Mathlib

/-!
# maya-usd, UFE adapters: `UsdUIInfoHandler` and `UsdTRSUndoableCommandBase`

A shallow embedding of `lib/mayaUsd/ufe/UsdUIInfoHandler.cpp` (the outliner icon, badge and
tooltip of a scene item) and of `lib/mayaUsd/ufe/UsdTRSUndoableCommandBase.h` (the base class
of the translate, rotate and scale undoable commands), followed by the properties proved of
them.

What the two files take from USD and UFE and do not declare themselves is a parameter of the
embedding: the values of the `PcpArcType` enumerators, the quadrants of an icon, the scalar
type of a vector, the hooks of the derived commands.

The header of the command declares its data members and defines `prim()`, `path()` and
`attribute()`; these are embedded as they are written. It only declares `initialize()`,
`perform()`, `undoImp()`, `redoImp()` and the observer callback: their definitions here
follow the specification, and say so.
-/

namespace MayaUsd
namespace ufe

/-! ## Containers of the C++ standard library -/

/-- One insertion into a `std::map`, the map being kept as its entries in iteration order
(ascending keys): the entry goes to its place in the order, and when its key is already in
the map the map is left as it is. -/
def StdMap.insert {K V : Type} [LinearOrder K] (kv : K × V) : List (K × V) → List (K × V)
  | [] => [kv]
  | e :: es =>
    if kv.1 < e.1 then kv :: e :: es
    else if kv.1 = e.1 then e :: es
    else e :: StdMap.insert kv es

/-- A `std::map` constructed from an initializer list: its entries are inserted one by one,
in the order of the list. -/
def StdMap.ofList {K V : Type} [LinearOrder K] (init : List (K × V)) : List (K × V) :=
  init.foldl (fun m kv => StdMap.insert kv m) []

/-- The member `find` of `std::map`, on the entries of the map: the value of the first
entry with the key, `none` standing for `cend()`. -/
def StdMap.find {K V : Type} [DecidableEq K] : List (K × V) → K → Option V
  | [], _ => none
  | e :: es, k => if e.1 = k then some e.2 else StdMap.find es k

/-! ## `UsdUIInfoHandler` -/

/-- A `PXR_NS::PcpArcType`, as the integer value of the enumerator. -/
abbrev PcpArcType := Nat

/-- The values of the five `PcpArcType` enumerators that the handler names. The enumeration
is declared by USD (`pxr/usd/pcp/types.h`), so the values are a parameter. -/
structure PcpArcTypeEnum where
  PcpArcTypeReference : PcpArcType
  PcpArcTypePayload : PcpArcType
  PcpArcTypeInherit : PcpArcType
  PcpArcTypeSpecialize : PcpArcType
  PcpArcTypeVariant : PcpArcType

/-- The five enumerators have five values, as the enumerators of the labels of one `switch`
must. -/
def PcpArcTypeEnum.Distinct (E : PcpArcTypeEnum) : Prop :=
  [E.PcpArcTypeReference, E.PcpArcTypePayload, E.PcpArcTypeInherit,
    E.PcpArcTypeSpecialize, E.PcpArcTypeVariant].Nodup

instance (E : PcpArcTypeEnum) : Decidable E.Distinct := by
  unfold PcpArcTypeEnum.Distinct; infer_instance

/-- Values for the examples: the enumerators in the strength order in which USD lists them
(root 0, inherit 1, variant 2, relocate 3, reference 4, payload 5, specialize 6). -/
def usdArcTypes : PcpArcTypeEnum :=
  { PcpArcTypeReference := 4, PcpArcTypePayload := 5, PcpArcTypeInherit := 1,
    PcpArcTypeSpecialize := 6, PcpArcTypeVariant := 2 }

/-- A `Ufe::SceneItem` as the handler reads it. `usd` is an item that
`std::dynamic_pointer_cast<UsdSceneItem>` accepts, with the arc types of
`UsdPrimCompositionQuery(usdItem->prim()).GetCompositionArcs()` in the order the query
returns the arcs; `other` is an item of another runtime. A null `Ptr` is `none` of
`Option SceneItem`. -/
inductive SceneItem where
  | usd (nodeType : String) (compositionArcs : List PcpArcType)
  | other (nodeType : String)

/-- The virtual `Ufe::SceneItem::nodeType()`. -/
def SceneItem.nodeType : SceneItem → String
  | .usd nodeType _ => nodeType
  | .other nodeType => nodeType

/-- The composition arcs of the prim of `std::dynamic_pointer_cast<UsdSceneItem>(item)`,
`none` when the cast gives a null pointer. -/
def SceneItem.usdCompositionArcs : SceneItem → Option (List PcpArcType)
  | .usd _ arcs => some arcs
  | .other _ => none

/-- The two values of `Ufe::UIInfoHandler::Quadrant` the handler meets: the position of a
default-constructed icon and `LowerRight`. UFE declares the type, so it is a parameter. -/
structure Quadrants (Q : Type) where
  default : Q
  LowerRight : Q

/-- The `Ufe::UIInfoHandler::Icon` record: base icon, badge icon and the badge's position. -/
structure Icon (Q : Type) where
  baseIcon : String
  badgeIcon : String
  pos : Q

/-- The default-constructed icon: "Default is empty (no icon and no badge)". -/
def Icon.empty {Q : Type} (q : Quadrants Q) : Icon Q :=
  { baseIcon := "", badgeIcon := "", pos := q.default }

/-- The icon constructed from a base icon alone, `Icon("out_USD_UsdTyped.png")`. -/
def Icon.ofBase {Q : Type} (q : Quadrants Q) (baseIcon : String) : Icon Q :=
  { baseIcon := baseIcon, badgeIcon := "", pos := q.default }

/-- The entries of the static map `supportedTypes` of `treeViewIcon`, in the order of its
initializer list. The map is only searched with `find`, which does not depend on the
iteration order, and no key comes twice. -/
def supportedTypes : List (String × String) :=
  [ ("",                 "out_USD_Def.png"),
    ("BlendShape",       "out_USD_BlendShape.png"),
    ("Camera",           "out_USD_Camera.png"),
    ("Capsule",          "out_USD_Capsule.png"),
    ("Cone",             "out_USD_Cone.png"),
    ("Cube",             "out_USD_Cube.png"),
    ("Cylinder",         "out_USD_Cylinder.png"),
    ("GeomSubset",       "out_USD_GeomSubset.png"),
    ("LightFilter",      "out_USD_LightFilter.png"),
    ("LightPortal",      "out_USD_LightPortal.png"),
    ("mayaReference",    "out_USD_mayaReference.png"),
    ("AL_MayaReference", "out_USD_mayaReference.png"),
    ("Mesh",             "out_USD_Mesh.png"),
    ("NurbsPatch",       "out_USD_NurbsPatch.png"),
    ("PointInstancer",   "out_USD_PointInstancer.png"),
    ("Points",           "out_USD_Points.png"),
    ("Scope",            "out_USD_Scope.png"),
    ("SkelAnimation",    "out_USD_SkelAnimation.png"),
    ("Skeleton",         "out_USD_Skeleton.png"),
    ("SkelRoot",         "out_USD_SkelRoot.png"),
    ("Sphere",           "out_USD_Sphere.png"),
    ("Volume",           "out_USD_Volume.png") ]

/-- The first four labels of the `switch` of `treeViewIcon`: reference, payload, inherit,
specialize. -/
def isCompArcBadgeType (E : PcpArcTypeEnum) (arcType : PcpArcType) : Prop :=
  arcType = E.PcpArcTypeReference ∨ arcType = E.PcpArcTypePayload
    ∨ arcType = E.PcpArcTypeInherit ∨ arcType = E.PcpArcTypeSpecialize

instance (E : PcpArcTypeEnum) (arcType : PcpArcType) :
    Decidable (isCompArcBadgeType E arcType) := by
  unfold isCompArcBadgeType; infer_instance

/-- The loop of `treeViewIcon` over the composition arcs. An arc of the first four types
sets the badge and the loop goes on; a variant arc sets the variant badge and ends the loop
(`keepLooking = false`); any other arc is passed over. -/
def treeViewIcon.badgeLoop {Q : Type} (E : PcpArcTypeEnum) (q : Quadrants Q) :
    List PcpArcType → Icon Q → Icon Q
  | [], icon => icon
  | arcType :: rest, icon =>
    if isCompArcBadgeType E arcType then
      treeViewIcon.badgeLoop E q rest
        { icon with badgeIcon := "out_USD_CompArcBadge.png", pos := q.LowerRight }
    else if arcType = E.PcpArcTypeVariant then
      { icon with badgeIcon := "out_USD_CompArcBadgeV.png", pos := q.LowerRight }
    else
      treeViewIcon.badgeLoop E q rest icon

/-- `UsdUIInfoHandler::treeViewIcon` with `UFE_PREVIEW_VERSION_NUM >= 2023`. -/
def treeViewIcon {Q : Type} (E : PcpArcTypeEnum) (q : Quadrants Q) :
    Option SceneItem → Icon Q
  | none => Icon.ofBase q "out_USD_UsdTyped.png"
  | some item =>
    let icon : Icon Q := Icon.empty q
    let icon : Icon Q :=
      match StdMap.find supportedTypes item.nodeType with
      | some second => { icon with baseIcon := second }
      | none => icon
    match item.usdCompositionArcs with
    | some arcs => treeViewIcon.badgeLoop E q arcs icon
    | none => icon

/-- `UsdUIInfoHandler::treeViewIcon` with `UFE_PREVIEW_VERSION_NUM` below 2023, where it
returns the name of the icon. -/
def treeViewIcon_pre2023 : Option SceneItem → String
  | none => "out_USD_UsdTyped.png"
  | some item =>
    match StdMap.find supportedTypes item.nodeType with
    | some second => second
    | none => ""

/-- The labels of the `switch` of `treeViewTooltip`: "We recognize these arc types". -/
def isRecognizedArcType (E : PcpArcTypeEnum) (arcType : PcpArcType) : Prop :=
  arcType = E.PcpArcTypeReference ∨ arcType = E.PcpArcTypePayload
    ∨ arcType = E.PcpArcTypeInherit ∨ arcType = E.PcpArcTypeSpecialize
    ∨ arcType = E.PcpArcTypeVariant

instance (E : PcpArcTypeEnum) (arcType : PcpArcType) :
    Decidable (isRecognizedArcType E arcType) := by
  unfold isRecognizedArcType; infer_instance

/-- The first loop of `treeViewTooltip`: the `std::multiset` `arcTypeCount`, kept as the list
of its elements (only `empty()` and `count()` are asked of it), which receives the type of
every arc of a recognized type. -/
def treeViewTooltip.arcTypeCount (E : PcpArcTypeEnum) :
    List PcpArcType → List PcpArcType → List PcpArcType
  | [], arcTypeCount => arcTypeCount
  | arcType :: rest, arcTypeCount =>
    if isRecognizedArcType E arcType then
      treeViewTooltip.arcTypeCount E rest (arcType :: arcTypeCount)
    else
      treeViewTooltip.arcTypeCount E rest arcTypeCount

/-- The static map `arcTypeStrings` of `treeViewTooltip`: arc type to singular and plural
name. -/
def arcTypeStrings (E : PcpArcTypeEnum) : List (PcpArcType × String × String) :=
  StdMap.ofList [
    (E.PcpArcTypeReference, "Reference", "References"),
    (E.PcpArcTypePayload, "Payload", "Payloads"),
    (E.PcpArcTypeInherit, "Inherit", "Inherits"),
    (E.PcpArcTypeSpecialize, "Specialize", "Specializes"),
    (E.PcpArcTypeVariant, "Variant", "Variants") ]

/-- The second loop of `treeViewTooltip`, over the entries of `arcTypeStrings`, on the pair
of `tooltip` and `needComma`. -/
def treeViewTooltip.stringsLoop (arcTypeCount : List PcpArcType) :
    List (PcpArcType × String × String) → String × Bool → String × Bool
  | [], state => state
  | arcType :: rest, (tooltip, needComma) =>
    let nb := arcTypeCount.count arcType.1
    if nb ≥ 1 then
      let tooltip := if needComma then tooltip ++ ", " else tooltip
      let tooltip :=
        if nb = 1 then tooltip ++ arcType.2.1
        else (tooltip ++ toString nb) ++ " " ++ arcType.2.2
      treeViewTooltip.stringsLoop arcTypeCount rest (tooltip, true)
    else
      treeViewTooltip.stringsLoop arcTypeCount rest (tooltip, needComma)

/-- `UsdUIInfoHandler::treeViewTooltip` (compiled with `UFE_PREVIEW_VERSION_NUM >= 2023`). -/
def treeViewTooltip (E : PcpArcTypeEnum) (item : Option SceneItem) : String :=
  let tooltip : String := ""
  match item.bind SceneItem.usdCompositionArcs with
  | some arcs =>
    let arcTypeCount := treeViewTooltip.arcTypeCount E arcs []
    if ¬ arcTypeCount.isEmpty then
      (treeViewTooltip.stringsLoop arcTypeCount (arcTypeStrings E)
        (tooltip ++ "<b>Composition Arcs:</b> ", false)).1
    else tooltip
  | none => tooltip

/-! ### The icon and the tooltip in the words of the specification -/

/-- The entry of one arc type in the tooltip: the singular name for one arc, the decimal
count, a space and the plural name for more. -/
def tooltipEntry (count : Nat) (names : String × String) : String :=
  if count = 1 then names.1 else toString count ++ " " ++ names.2

/-- The five recognized arc types with their names, sorted by ascending value. -/
def arcTypesAscending (E : PcpArcTypeEnum) : List (PcpArcType × String × String) :=
  List.insertionSort (fun a b => a.1 ≤ b.1) [
    (E.PcpArcTypeReference, "Reference", "References"),
    (E.PcpArcTypePayload, "Payload", "Payloads"),
    (E.PcpArcTypeInherit, "Inherit", "Inherits"),
    (E.PcpArcTypeSpecialize, "Specialize", "Specializes"),
    (E.PcpArcTypeVariant, "Variant", "Variants") ]

/-- The tooltip of a USD item as the claim describes it, from the counts of the arcs of
each of the five types. -/
def tooltipOfCounts (E : PcpArcTypeEnum) (arcs : List PcpArcType) : String :=
  if ∀ t ∈ arcTypesAscending E, arcs.count t.1 = 0 then ""
  else "<b>Composition Arcs:</b> " ++
    ", ".intercalate
      (((arcTypesAscending E).filter (fun t => decide (arcs.count t.1 ≥ 1))).map
        (fun t => tooltipEntry (arcs.count t.1) t.2))

/-- The badge of a USD item as the claim describes it. -/
def badgeOfArcs (E : PcpArcTypeEnum) (arcs : List PcpArcType) : String :=
  if E.PcpArcTypeVariant ∈ arcs then "out_USD_CompArcBadgeV.png"
  else if ∃ a ∈ arcs, a = E.PcpArcTypeReference ∨ a = E.PcpArcTypePayload
      ∨ a = E.PcpArcTypeInherit ∨ a = E.PcpArcTypeSpecialize then "out_USD_CompArcBadge.png"
  else ""

/-! ### Auxiliary definitions of the proofs -/

/-- Every string of the list with the separator before it. -/
def sepBefore (sep : String) : List String → String
  | [] => ""
  | a :: rest => sep ++ a ++ sepBefore sep rest

/-- The entries the second loop of the tooltip writes for the map entries `m`. -/
def shownEntries (arcTypeCount : List PcpArcType) (m : List (PcpArcType × String × String)) :
    List String :=
  (m.filter (fun t => decide (arcTypeCount.count t.1 ≥ 1))).map
    (fun t => tooltipEntry (arcTypeCount.count t.1) t.2)

instance : IsTotal (PcpArcType × String × String) (fun a b => a.1 ≤ b.1) :=
  ⟨fun a b => le_total a.1 b.1⟩

instance : IsTrans (PcpArcType × String × String) (fun a b => a.1 ≤ b.1) :=
  ⟨fun _ _ _ hab hbc => le_trans hab hbc⟩

/-! ## `UsdTRSUndoableCommandBase` -/

/-- A `TfToken`, as its text. -/
abbrev TfToken := String

/-- A `UsdPrim`, as the identity of the prim it is a handle of. -/
abbrev UsdPrim := Nat

/-- A `Ufe::Path`, as its components. -/
abbrev Path := List String

/-- A `UsdSceneItem::Ptr`: the address of a scene item that is shared with the rest of the
application. -/
abbrev UsdSceneItemPtr := Nat

/-- A `GfVec3f` or `GfVec3d`, the vector type `V` of the class template: three components of
the scalar type `S`, which is a parameter. The `double` arguments of `perform` and
`performImp` are taken in the same scalar type. -/
structure GfVec3 (S : Type) where
  x : S
  y : S
  z : S
deriving DecidableEq

/-- What the command reads of a `UsdSceneItem`: `path()` and `prim()`. -/
structure UsdSceneItem where
  path : Path
  prim : UsdPrim
deriving DecidableEq

/-- A `UsdAttribute`: a handle made of a prim and the name of the attribute. -/
structure UsdAttribute where
  prim : UsdPrim
  name : TfToken
deriving DecidableEq

/-- `UsdPrim::GetAttribute`. -/
def UsdPrim.GetAttribute (prim : UsdPrim) (attrName : TfToken) : UsdAttribute :=
  { prim := prim, name := attrName }

/-- The state outside the command: the scene items the shared pointers point to, and the
value of every attribute of the stage, `none` for an attribute that does not exist. -/
structure Scene (S : Type) where
  items : UsdSceneItemPtr → UsdSceneItem
  attrs : UsdAttribute → Option (GfVec3 S)

/-- The scene with one attribute set to a value, created with it, or removed (`none`). -/
def Scene.setAttr {S : Type} (w : Scene S) (a : UsdAttribute) (v : Option (GfVec3 S)) :
    Scene S :=
  { w with attrs := Function.update w.attrs a v }

/-- The data members of `UsdTRSUndoableCommandBase<V>`, with their member initializers. -/
structure UsdTRSUndoableCommandBase (S : Type) where
  fItem : UsdSceneItemPtr
  fPrevValue : GfVec3 S
  fNewValue : GfVec3 S
  fOpAdded : Bool := false
  fDoneOnce : Bool := false
deriving DecidableEq

/-- The inline member `prim()`: `fItem->prim()`. -/
def UsdTRSUndoableCommandBase.prim {S : Type} (c : UsdTRSUndoableCommandBase S)
    (items : UsdSceneItemPtr → UsdSceneItem) : UsdPrim :=
  (items c.fItem).prim

/-- The inline member `path()`: `fItem->path()`. -/
def UsdTRSUndoableCommandBase.path {S : Type} (c : UsdTRSUndoableCommandBase S)
    (items : UsdSceneItemPtr → UsdSceneItem) : Path :=
  (items c.fItem).path

/-- The inline member `attribute()`: `prim().GetAttribute(attributeName())`, the name being
the result of the pure virtual `attributeName()`. -/
def UsdTRSUndoableCommandBase.attribute {S : Type} (c : UsdTRSUndoableCommandBase S)
    (attributeName : TfToken) (items : UsdSceneItemPtr → UsdSceneItem) : UsdAttribute :=
  UsdPrim.GetAttribute (c.prim items) attributeName

/-- The hooks "to be implemented by the derived class": `attributeName()`, `performImp()`,
`addEmptyAttribute()` and `cannotInit()`. They are virtual, so they are a parameter; the prim
they are given is the command's current `prim()`. -/
structure Hooks (S : Type) where
  attributeName : TfToken
  performImp : S → S → S → UsdPrim → Scene S → Scene S
  addEmptyAttribute : UsdPrim → Scene S → Scene S
  cannotInit : UsdPrim → Scene S → Bool

/-- Modelled from the spec: the capability contract of the derivations (§4.1), the part of
it the lifecycle relies on. `applyValue(x, y, z)` "writes the three components" into the
attribute, which exists, and `createAttributeIfMissing()` "materializes the attribute with
an appropriate default/identity when absent"; neither touches anything else. The
derivations are not part of the sources. -/
structure Hooks.Contract {S : Type} (h : Hooks S) : Prop where
  performImp_writes : ∀ (x y z : S) (p : UsdPrim) (w : Scene S),
    w.attrs (UsdPrim.GetAttribute p h.attributeName) ≠ none →
      h.performImp x y z p w =
        w.setAttr (UsdPrim.GetAttribute p h.attributeName) (some { x := x, y := y, z := z })
  addEmptyAttribute_creates : ∀ (p : UsdPrim) (w : Scene S),
    w.attrs (UsdPrim.GetAttribute p h.attributeName) = none →
      ∃ d : GfVec3 S,
        h.addEmptyAttribute p w = w.setAttr (UsdPrim.GetAttribute p h.attributeName) (some d)

/-- Modelled from the spec: the state of a command through its lifecycle (§3, §4.1): the
five data members the header declares (`data`), the flag of the "no-op shell" a blocked
initialization leaves (`shell`), and the "disabled-state flag" of §7, the "orthogonal flag
`Invalidated`" of §4.1, set by an external notification (`invalidated`). -/
structure TRSCommand (S : Type) where
  data : UsdTRSUndoableCommandBase S
  shell : Bool := false
  invalidated : Bool := false
deriving DecidableEq

/-- Modelled from the spec: what an operation reports to its caller, the taxonomy of §7
(`PrecisionMismatch`, a matter of choosing the variant, apart). -/
inductive Report where
  | done
  | initializationBlocked
  | staleTarget
  | invalidSequencing
deriving DecidableEq

/-- The result of an operation: the report, the command and the scene after it. -/
structure Outcome (S : Type) where
  report : Report
  cmd : TRSCommand S
  scene : Scene S

/-- Modelled from the spec: the notifications of the scene's "structural/value-change
notification stream" (§4.1), each for a path, as `Ufe::Notification` and its subclasses
are declared by UFE. -/
inductive Notification where
  | attributeRemoved (path : Path) (attrName : TfToken)
  | nodeRemoved (path : Path)
  | attributeChanged (path : Path) (attrName : TfToken)

/-- Modelled from the spec: `checkNotification`, whose definition is not part of the
sources. A notification that "the watched attribute was deleted or the node itself was
removed/deactivated" puts the command in the disabled state. The command is subscribed from
`initialize()` on, so the callback runs on an initialized command. -/
def checkNotification {S : Type} (h : Hooks S) (w : Scene S) (n : Notification)
    (c : TRSCommand S) : TRSCommand S :=
  match n with
  | .attributeRemoved path attrName =>
    if path = c.data.path w.items ∧ attrName = h.attributeName then
      { c with invalidated := true }
    else c
  | .nodeRemoved path =>
    if path = c.data.path w.items then { c with invalidated := true } else c
  | .attributeChanged _ _ => c

/-- Modelled from the spec: `operator()` of `Ufe::Observer`, whose definition is not part of
the sources. `ownWrite` is the "short-lived suppression flag set during
`applyValue`/attribute-creation calls": a notification "caused by this command's own
writes" is ignored, any other is checked. -/
def operatorCall {S : Type} (h : Hooks S) (ownWrite : Bool) (w : Scene S) (n : Notification)
    (c : TRSCommand S) : TRSCommand S :=
  if ownWrite then c else checkNotification h w n c

/-- Modelled from the spec: `initialize()` (§4.1), whose definition is not part of the
sources. A blocked initialization leaves a no-op shell; otherwise the attribute is created
when it is absent, with `fOpAdded` set, and its value is captured in `fPrevValue`. -/
def initializeImp {S : Type} (h : Hooks S) (c : TRSCommand S) (w : Scene S) : Outcome S :=
  let p := c.data.prim w.items
  if h.cannotInit p w then
    { report := .initializationBlocked, cmd := { c with shell := true }, scene := w }
  else
    let absent := (w.attrs (c.data.attribute h.attributeName w.items)).isNone
    let w1 := if absent then h.addEmptyAttribute p w else w
    let prev :=
      match w1.attrs (c.data.attribute h.attributeName w1.items) with
      | some v => v
      | none => c.data.fPrevValue
    { report := .done,
      cmd := { c with data := { c.data with
        fOpAdded := c.data.fOpAdded || absent, fPrevValue := prev } },
      scene := w1 }

/-- Modelled from the spec: `perform(x, y, z)` (§4.1), whose definition is not part of the
sources. It sets `fNewValue`, applies the value to the current prim and sets `fDoneOnce`; on
a shell or a disabled command it is a no-op. -/
def perform {S : Type} (h : Hooks S) (x y z : S) (c : TRSCommand S) (w : Scene S) :
    Outcome S :=
  if c.invalidated then { report := .staleTarget, cmd := c, scene := w }
  else if c.shell then { report := .initializationBlocked, cmd := c, scene := w }
  else
    { report := .done,
      cmd := { c with data := { c.data with
        fNewValue := { x := x, y := y, z := z }, fDoneOnce := true } },
      scene := h.performImp x y z (c.data.prim w.items) w }

/-- Modelled from the spec: `undoImp()` (§4.1), whose definition is not part of the sources.
After the checks of the disabled state, of the shell and of `fDoneOnce`, it removes the
attribute when the command created it and otherwise writes `fPrevValue` back. The
notification of the removal comes while the command writes, and is ignored. -/
def undoImp {S : Type} (h : Hooks S) (c : TRSCommand S) (w : Scene S) : Outcome S :=
  if c.invalidated then { report := .staleTarget, cmd := c, scene := w }
  else if c.shell then { report := .initializationBlocked, cmd := c, scene := w }
  else if ¬ c.data.fDoneOnce then { report := .invalidSequencing, cmd := c, scene := w }
  else if c.data.fOpAdded then
    let w1 := w.setAttr (c.data.attribute h.attributeName w.items) none
    { report := .done,
      cmd := operatorCall h true w1
        (.attributeRemoved (c.data.path w.items) h.attributeName) c,
      scene := w1 }
  else
    { report := .done, cmd := c,
      scene := h.performImp c.data.fPrevValue.x c.data.fPrevValue.y c.data.fPrevValue.z
        (c.data.prim w.items) w }

/-- Modelled from the spec: `redoImp()` (§4.1), whose definition is not part of the sources.
After the same checks it recreates the attribute when the command created it, and writes
`fNewValue`. -/
def redoImp {S : Type} (h : Hooks S) (c : TRSCommand S) (w : Scene S) : Outcome S :=
  if c.invalidated then { report := .staleTarget, cmd := c, scene := w }
  else if c.shell then { report := .initializationBlocked, cmd := c, scene := w }
  else if ¬ c.data.fDoneOnce then { report := .invalidSequencing, cmd := c, scene := w }
  else
    let p := c.data.prim w.items
    let w1 := if c.data.fOpAdded then h.addEmptyAttribute p w else w
    { report := .done, cmd := c,
      scene := h.performImp c.data.fNewValue.x c.data.fNewValue.y c.data.fNewValue.z p w1 }

/-- A sequence of `perform` calls, one for each triple, each on the outcome of the one
before. -/
def performAll {S : Type} (h : Hooks S) :
    List (S × S × S) → TRSCommand S → Scene S → TRSCommand S × Scene S
  | [], c, w => (c, w)
  | (x, y, z) :: rest, c, w =>
    let o := perform h x y z c w
    performAll h rest o.cmd o.scene

/-- The pair `undoImp(); redoImp()`, run `n` times. -/
def undoRedo {S : Type} (h : Hooks S) : Nat → TRSCommand S → Scene S → TRSCommand S × Scene S
  | 0, c, w => (c, w)
  | n + 1, c, w =>
    let u := undoImp h c w
    let r := redoImp h u.cmd u.scene
    undoRedo h n r.cmd r.scene

/-- A derivation for the examples: the translate command, which edits
`xformOp:translate`, creates it at the origin and never refuses to initialize. -/
def translateHooks : Hooks Int :=
  { attributeName := "xformOp:translate",
    performImp := fun x y z p w =>
      w.setAttr (UsdPrim.GetAttribute p "xformOp:translate") (some { x := x, y := y, z := z }),
    addEmptyAttribute := fun p w =>
      w.setAttr (UsdPrim.GetAttribute p "xformOp:translate") (some { x := 0, y := 0, z := 0 }),
    cannotInit := fun _ _ => false }

/-- A scene for the examples: every item pointer resolves to the node `/N`, prim 7, and no
attribute exists. -/
def emptyScene : Scene Int :=
  { items := fun _ => { path := ["N"], prim := 7 }, attrs := fun _ => none }

/-- A command after its constructor and before `initialize()`: the two flags have the values
of their member initializers, and the command is neither a shell nor disabled. What the
constructor leaves in the two vectors is a parameter. -/
def TRSCommand.fresh {S : Type} (item : UsdSceneItemPtr) (prev new : GfVec3 S) :
    TRSCommand S :=
  { data := { fItem := item, fPrevValue := prev, fNewValue := new } }

/-- `initialize()` and then the `perform` calls of the list, on a command as constructed. -/
def initializeThenPerform {S : Type} (h : Hooks S) (steps : List (S × S × S))
    (c : TRSCommand S) (w : Scene S) : TRSCommand S × Scene S :=
  let o := initializeImp h c w
  performAll h steps o.cmd o.scene

/-- The command of the examples, created on the item at address 0 with (0, 0, 0). -/
def exampleCommand : TRSCommand Int :=
  TRSCommand.fresh 0 { x := 0, y := 0, z := 0 } { x := 0, y := 0, z := 0 }

/-- The scene of the examples with the edited attribute at (1, 2, 3). -/
def authoredScene : Scene Int :=
  emptyScene.setAttr (UsdPrim.GetAttribute 7 "xformOp:translate") (some { x := 1, y := 2, z := 3 })

/-- The attribute the command of the examples edits. -/
def exampleAttribute : UsdAttribute := UsdPrim.GetAttribute 7 "xformOp:translate"

/-- What the lifecycle keeps true once the command has been initialized: the command is
live and the attribute exists. -/
def Initialized {S : Type} (h : Hooks S) (c : TRSCommand S) (w : Scene S) : Prop :=
  c.shell = false ∧ c.invalidated = false ∧
    w.attrs (c.data.attribute h.attributeName w.items) ≠ none

/-- What the lifecycle keeps true once the command has been performed: the command is live,
`fDoneOnce` is set and the attribute holds `fNewValue`. -/
def Performed {S : Type} (h : Hooks S) (c : TRSCommand S) (w : Scene S) : Prop :=
  c.shell = false ∧ c.invalidated = false ∧ c.data.fDoneOnce = true ∧
    w.attrs (c.data.attribute h.attributeName w.items) = some c.data.fNewValue

/-! ## Properties of `UsdUIInfoHandler` -/

section UIInfoLemmas

variable {Q : Type}

theorem variant_not_compArcBadgeType (E : PcpArcTypeEnum) (hE : E.Distinct) :
    ¬ isCompArcBadgeType E E.PcpArcTypeVariant := by
  unfold PcpArcTypeEnum.Distinct at hE
  unfold isCompArcBadgeType
  simp only [List.nodup_cons, List.mem_cons, List.mem_singleton, List.not_mem_nil, not_or,
    or_false, not_false_eq_true, and_true, List.nodup_nil] at hE
  obtain ⟨⟨-, -, -, h1⟩, ⟨-, -, h2⟩, ⟨-, h3⟩, h4⟩ := hE
  rintro (h | h | h | h)
  · exact h1 h.symm
  · exact h2 h.symm
  · exact h3 h.symm
  · exact h4 h.symm

/-- The badge loop in closed form. -/
theorem badgeLoop_eq (E : PcpArcTypeEnum) (hE : E.Distinct) (q : Quadrants Q)
    (arcs : List PcpArcType) (icon : Icon Q) :
    treeViewIcon.badgeLoop E q arcs icon =
      if E.PcpArcTypeVariant ∈ arcs then
        { icon with badgeIcon := "out_USD_CompArcBadgeV.png", pos := q.LowerRight }
      else if ∃ a ∈ arcs, isCompArcBadgeType E a then
        { icon with badgeIcon := "out_USD_CompArcBadge.png", pos := q.LowerRight }
      else icon := by
  have hV := variant_not_compArcBadgeType E hE
  induction arcs generalizing icon with
  | nil => simp [treeViewIcon.badgeLoop]
  | cons a rest ih =>
    unfold treeViewIcon.badgeLoop
    by_cases ha : isCompArcBadgeType E a
    · have hne : E.PcpArcTypeVariant ≠ a := fun h => hV (h ▸ ha)
      rw [if_pos ha, ih]
      have hex : ∃ x ∈ a :: rest, isCompArcBadgeType E x := ⟨a, List.mem_cons_self _ _, ha⟩
      by_cases hv : E.PcpArcTypeVariant ∈ rest
      · have hv2 : E.PcpArcTypeVariant ∈ a :: rest := List.mem_cons_of_mem _ hv
        rw [if_pos hv, if_pos hv2]
      · have hv2 : E.PcpArcTypeVariant ∉ a :: rest := by
          simp only [List.mem_cons, not_or]; exact ⟨hne, hv⟩
        rw [if_neg hv, if_neg hv2, if_pos hex]
        split <;> rfl
    · rw [if_neg ha]
      by_cases hav : a = E.PcpArcTypeVariant
      · rw [if_pos hav, if_pos (by rw [hav]; exact List.mem_cons_self _ _)]
      · rw [if_neg hav, ih]
        have h1 : E.PcpArcTypeVariant ∈ a :: rest ↔ E.PcpArcTypeVariant ∈ rest := by
          simp only [List.mem_cons]
          constructor
          · rintro (h | h)
            · exact absurd h.symm hav
            · exact h
          · exact Or.inr
        have h2 : (∃ x ∈ a :: rest, isCompArcBadgeType E x) ↔
            ∃ x ∈ rest, isCompArcBadgeType E x := by
          simp only [List.mem_cons, exists_eq_or_imp]
          constructor
          · rintro (h | h)
            · exact absurd h ha
            · exact h
          · exact Or.inr
        simp only [h1, h2]

theorem intercalate_go_eq (sep : String) (l : List String) (acc : String) :
    String.intercalate.go acc sep l = acc ++ sepBefore sep l := by
  induction l generalizing acc with
  | nil => simp [String.intercalate.go, sepBefore]
  | cons a rest ih =>
    simp only [String.intercalate.go, sepBefore, ih, String.append_assoc]

theorem intercalate_cons (sep a : String) (l : List String) :
    sep.intercalate (a :: l) = a ++ sepBefore sep l := by
  simp only [String.intercalate, intercalate_go_eq]

theorem shownEntries_cons (cnt : List PcpArcType) (e : PcpArcType × String × String)
    (m : List (PcpArcType × String × String)) :
    shownEntries cnt (e :: m) =
      if cnt.count e.1 ≥ 1 then tooltipEntry (cnt.count e.1) e.2 :: shownEntries cnt m
      else shownEntries cnt m := by
  unfold shownEntries
  by_cases h : cnt.count e.1 ≥ 1
  · rw [List.filter_cons, if_pos (by simpa using h), if_pos h, List.map_cons]
  · rw [List.filter_cons, if_neg (by simpa using h), if_neg h]

theorem stringsLoop_needComma (cnt : List PcpArcType)
    (m : List (PcpArcType × String × String)) (tooltip : String) :
    treeViewTooltip.stringsLoop cnt m (tooltip, true) =
      (tooltip ++ sepBefore ", " (shownEntries cnt m), true) := by
  induction m generalizing tooltip with
  | nil => simp [treeViewTooltip.stringsLoop, shownEntries, sepBefore]
  | cons e rest ih =>
    rw [shownEntries_cons]
    unfold treeViewTooltip.stringsLoop
    by_cases h : cnt.count e.1 ≥ 1
    · simp only [h, if_true, ih, sepBefore, tooltipEntry]
      by_cases h1 : cnt.count e.1 = 1
      · simp only [h1, if_true, String.append_assoc]
      · simp only [h1, if_false, String.append_assoc]
    · simp only [h, if_false, ih]

theorem stringsLoop_first (cnt : List PcpArcType)
    (m : List (PcpArcType × String × String)) (tooltip : String) :
    (treeViewTooltip.stringsLoop cnt m (tooltip, false)).1 =
      tooltip ++ ", ".intercalate (shownEntries cnt m) := by
  induction m generalizing tooltip with
  | nil => simp [treeViewTooltip.stringsLoop, shownEntries, String.intercalate]
  | cons e rest ih =>
    rw [shownEntries_cons]
    unfold treeViewTooltip.stringsLoop
    by_cases h : cnt.count e.1 ≥ 1
    · simp only [h, if_true, stringsLoop_needComma, intercalate_cons, tooltipEntry]
      by_cases h1 : cnt.count e.1 = 1
      · simp [h1, String.append_assoc]
      · simp [h1, String.append_assoc]
    · simp only [h, if_false, ih]

theorem arcTypeCount_eq (E : PcpArcTypeEnum) (arcs acc : List PcpArcType) :
    treeViewTooltip.arcTypeCount E arcs acc =
      (arcs.filter (fun a => decide (isRecognizedArcType E a))).reverse ++ acc := by
  induction arcs generalizing acc with
  | nil => simp [treeViewTooltip.arcTypeCount]
  | cons a rest ih =>
    unfold treeViewTooltip.arcTypeCount
    by_cases h : isRecognizedArcType E a
    · simp [h, ih, List.filter_cons]
    · simp [h, ih, List.filter_cons]

theorem arcTypeCount_count (E : PcpArcTypeEnum) (arcs : List PcpArcType) (k : PcpArcType)
    (hk : isRecognizedArcType E k) :
    (treeViewTooltip.arcTypeCount E arcs []).count k = arcs.count k := by
  rw [arcTypeCount_eq, List.append_nil, List.count_reverse]
  induction arcs with
  | nil => rfl
  | cons a rest ih =>
    by_cases h : isRecognizedArcType E a
    · simp only [List.filter_cons, h, decide_True, if_true, List.count_cons, ih]
    · have hne : ¬ (a == k) = true := by
        intro hak
        have : a = k := by simpa using hak
        exact h (this ▸ hk)
      simp only [List.filter_cons, h, decide_False, List.count_cons, hne, if_false]
      simpa using ih

theorem arcTypeCount_isEmpty (E : PcpArcTypeEnum) (arcs : List PcpArcType) :
    (treeViewTooltip.arcTypeCount E arcs []).isEmpty = true ↔
      ∀ a ∈ arcs, ¬ isRecognizedArcType E a := by
  rw [arcTypeCount_eq, List.append_nil, List.isEmpty_iff, List.reverse_eq_nil_iff,
    List.filter_eq_nil_iff]
  simp

section StdMapLemmas

variable {K V : Type} [LinearOrder K]

theorem StdMap.insert_keys_subset (kv : K × V) (m : List (K × V)) :
    ∀ k ∈ (StdMap.insert kv m).map Prod.fst, k = kv.1 ∨ k ∈ m.map Prod.fst := by
  induction m with
  | nil => intro k hk; simpa [StdMap.insert] using hk
  | cons e es ih =>
    intro k hk
    unfold StdMap.insert at hk
    split_ifs at hk with h1 h2
    · simp only [List.map_cons, List.mem_cons] at hk ⊢
      exact hk
    · exact Or.inr hk
    · simp only [List.map_cons, List.mem_cons] at hk ⊢
      rcases hk with hk | hk
      · exact Or.inr (Or.inl hk)
      · rcases ih k hk with h | h
        · exact Or.inl h
        · exact Or.inr (Or.inr h)

theorem StdMap.insert_sorted (kv : K × V) (m : List (K × V))
    (hm : (m.map Prod.fst).Sorted (· < ·)) :
    ((StdMap.insert kv m).map Prod.fst).Sorted (· < ·) := by
  induction m with
  | nil => simp [StdMap.insert]
  | cons e es ih =>
    unfold StdMap.insert
    have hm' := hm
    simp only [List.map_cons, List.sorted_cons] at hm'
    split_ifs with h1 h2
    · simp only [List.map_cons, List.sorted_cons, List.mem_cons]
      refine ⟨?_, hm'⟩
      rintro b (hb | hb)
      · exact hb ▸ h1
      · exact lt_trans h1 (hm'.1 b hb)
    · exact hm
    · simp only [List.map_cons, List.sorted_cons]
      refine ⟨?_, ih hm'.2⟩
      intro b hb
      rcases StdMap.insert_keys_subset kv es b hb with h | h
      · rw [h]
        exact lt_of_le_of_ne (not_lt.mp h1) (fun h' => h2 h'.symm)
      · exact hm'.1 b h

theorem StdMap.insert_perm (kv : K × V) (m : List (K × V))
    (hnew : kv.1 ∉ m.map Prod.fst) : (StdMap.insert kv m).Perm (kv :: m) := by
  induction m with
  | nil => simp [StdMap.insert]
  | cons e es ih =>
    unfold StdMap.insert
    simp only [List.map_cons, List.mem_cons, not_or] at hnew
    split_ifs with h1 h2
    · exact List.Perm.refl _
    · exact absurd h2 hnew.1
    · exact ((ih hnew.2).cons e).trans (List.Perm.swap kv e es)

theorem StdMap.foldl_insert_sorted (init m : List (K × V))
    (hm : (m.map Prod.fst).Sorted (· < ·)) :
    ((init.foldl (fun m kv => StdMap.insert kv m) m).map Prod.fst).Sorted (· < ·) := by
  induction init generalizing m with
  | nil => exact hm
  | cons kv rest ih => exact ih _ (StdMap.insert_sorted kv m hm)

theorem StdMap.foldl_insert_perm (init m : List (K × V))
    (hnd : ((m ++ init).map Prod.fst).Nodup) :
    (init.foldl (fun m kv => StdMap.insert kv m) m).Perm (m ++ init) := by
  induction init generalizing m with
  | nil => simp
  | cons kv rest ih =>
    have hnew : kv.1 ∉ m.map Prod.fst := by
      intro hmem
      rw [List.map_append, List.map_cons] at hnd
      have := (List.nodup_append.mp hnd).2.2
      exact this hmem (List.mem_cons_self _ _)
    have hp := StdMap.insert_perm kv m hnew
    have hp2 : (StdMap.insert kv m ++ rest).Perm (m ++ kv :: rest) :=
      (hp.append_right rest).trans (List.perm_middle.symm)
    have hnd2 : ((StdMap.insert kv m ++ rest).map Prod.fst).Nodup :=
      ((hp2.map Prod.fst).nodup_iff).mpr hnd
    exact (ih _ hnd2).trans hp2

theorem StdMap.ofList_sorted (init : List (K × V)) :
    ((StdMap.ofList init).map Prod.fst).Sorted (· < ·) :=
  StdMap.foldl_insert_sorted init [] (by simp)

theorem StdMap.ofList_perm (init : List (K × V)) (hnd : (init.map Prod.fst).Nodup) :
    (StdMap.ofList init).Perm init := by
  have := StdMap.foldl_insert_perm init [] (by simpa using hnd)
  simpa [StdMap.ofList] using this

/-- Two lists of entries with the same entries, both in ascending key order, one of them
strictly, are one list. -/
theorem StdMap.eq_of_perm_of_sorted (l₁ l₂ : List (K × V)) (hp : l₁.Perm l₂)
    (h₁ : (l₁.map Prod.fst).Sorted (· < ·))
    (h₂ : l₂.Sorted (fun a b => a.1 ≤ b.1)) : l₁ = l₂ := by
  let r : K × V → K × V → Prop := fun a b => a.1 < b.1 ∨ a = b
  haveI : IsAntisymm (K × V) r := ⟨by
    rintro a b (hab | hab) (hba | hba)
    · exact absurd hab (lt_asymm hba)
    · exact hba.symm
    · exact hab
    · exact hab⟩
  have hlt₁ : l₁.Pairwise (fun a b => a.1 < b.1) := List.pairwise_map.mp h₁
  have hnd₂ : l₂.Pairwise (fun a b => a.1 ≠ b.1) := by
    have hnd : (l₂.map Prod.fst).Nodup :=
      ((hp.map Prod.fst).nodup_iff).mp (h₁.imp (fun h => ne_of_lt h))
    exact List.pairwise_map.mp hnd
  have hlt₂ : l₂.Pairwise (fun a b => a.1 < b.1) :=
    (List.Pairwise.and h₂ hnd₂).imp (fun h => lt_of_le_of_ne h.1 h.2)
  exact List.eq_of_perm_of_sorted (r := r) hp (hlt₁.imp Or.inl) (hlt₂.imp Or.inl)

end StdMapLemmas

/-- With five values for the five enumerators, the map `arcTypeStrings` iterates over the
five types by ascending value. -/
theorem arcTypeStrings_eq_ascending (E : PcpArcTypeEnum) (hE : E.Distinct) :
    arcTypeStrings E = arcTypesAscending E := by
  unfold arcTypeStrings arcTypesAscending
  apply StdMap.eq_of_perm_of_sorted
  · exact (StdMap.ofList_perm _ (by simpa [PcpArcTypeEnum.Distinct] using hE)).trans
      (List.perm_insertionSort _ _).symm
  · exact StdMap.ofList_sorted _
  · exact List.sorted_insertionSort _ _

theorem arcTypeStrings_keys (E : PcpArcTypeEnum) :
    ∀ e ∈ arcTypeStrings E, isRecognizedArcType E e.1 := by
  have key : ∀ (init m : List (PcpArcType × String × String)),
      (∀ e ∈ m, isRecognizedArcType E e.1) → (∀ e ∈ init, isRecognizedArcType E e.1) →
      ∀ e ∈ init.foldl (fun m kv => StdMap.insert kv m) m, isRecognizedArcType E e.1 := by
    intro init
    induction init with
    | nil => intro m hm _ e he; exact hm e he
    | cons kv rest ih =>
      intro m hm hinit e he
      refine ih (StdMap.insert kv m) ?_ (fun x hx => hinit x (List.mem_cons_of_mem _ hx)) e he
      intro x hx
      have hk := StdMap.insert_keys_subset kv m x.1 (List.mem_map_of_mem Prod.fst hx)
      rcases hk with hk | hk
      · rw [hk]; exact hinit kv (List.mem_cons_self _ _)
      · obtain ⟨y, hy, hyx⟩ := List.mem_map.mp hk
        rw [← hyx]; exact hm y hy
  apply key _ [] (by simp)
  intro e he
  simp only [List.mem_cons, List.mem_singleton, List.not_mem_nil, or_false] at he
  unfold isRecognizedArcType
  rcases he with h | h | h | h | h <;> simp [h]

theorem shownEntries_congr (cnt cnt' : List PcpArcType)
    (m : List (PcpArcType × String × String))
    (h : ∀ e ∈ m, cnt.count e.1 = cnt'.count e.1) :
    shownEntries cnt m = shownEntries cnt' m := by
  induction m with
  | nil => rfl
  | cons e rest ih =>
    rw [shownEntries_cons, shownEntries_cons, h e (List.mem_cons_self _ _),
      ih (fun x hx => h x (List.mem_cons_of_mem _ hx))]

/-- The tooltip of a USD item in closed form. -/
theorem treeViewTooltip_usd (E : PcpArcTypeEnum) (nodeType : String)
    (arcs : List PcpArcType) :
    treeViewTooltip E (some (.usd nodeType arcs)) =
      if ∀ a ∈ arcs, ¬ isRecognizedArcType E a then ""
      else "<b>Composition Arcs:</b> " ++
        ", ".intercalate (shownEntries arcs (arcTypeStrings E)) := by
  unfold treeViewTooltip
  simp only [Option.bind, SceneItem.usdCompositionArcs]
  by_cases h : ∀ a ∈ arcs, ¬ isRecognizedArcType E a
  · rw [if_pos h, if_neg (by simpa using (arcTypeCount_isEmpty E arcs).mpr h)]
  · have hne : ¬ (treeViewTooltip.arcTypeCount E arcs []).isEmpty = true :=
      fun hemp => h ((arcTypeCount_isEmpty E arcs).mp hemp)
    rw [if_neg h, if_pos hne, stringsLoop_first]
    rw [shownEntries_congr _ arcs _
      (fun e he => arcTypeCount_count E arcs e.1 (arcTypeStrings_keys E e he))]
    rw [String.empty_append]

theorem mem_arcTypesAscending (E : PcpArcTypeEnum) (a : PcpArcType) :
    (∃ t ∈ arcTypesAscending E, t.1 = a) ↔ isRecognizedArcType E a := by
  have hmem : ∀ t, t ∈ arcTypesAscending E ↔ t ∈ [
      (E.PcpArcTypeReference, "Reference", "References"),
      (E.PcpArcTypePayload, "Payload", "Payloads"),
      (E.PcpArcTypeInherit, "Inherit", "Inherits"),
      (E.PcpArcTypeSpecialize, "Specialize", "Specializes"),
      (E.PcpArcTypeVariant, "Variant", "Variants") ] :=
    fun t => (List.perm_insertionSort _ _).mem_iff
  unfold isRecognizedArcType
  constructor
  · rintro ⟨t, ht, rfl⟩
    have := (hmem t).mp ht
    simp only [List.mem_cons, List.mem_singleton, List.not_mem_nil, or_false] at this
    rcases this with h | h | h | h | h <;> simp [h]
  · rintro (h | h | h | h | h)
    · exact ⟨_, (hmem _).mpr (List.mem_cons_self _ _), h.symm⟩
    · exact ⟨_, (hmem _).mpr (List.mem_cons_of_mem _ (List.mem_cons_self _ _)), h.symm⟩
    · exact ⟨_, (hmem _).mpr (List.mem_cons_of_mem _ (List.mem_cons_of_mem _
        (List.mem_cons_self _ _))), h.symm⟩
    · exact ⟨_, (hmem _).mpr (List.mem_cons_of_mem _ (List.mem_cons_of_mem _
        (List.mem_cons_of_mem _ (List.mem_cons_self _ _)))), h.symm⟩
    · exact ⟨_, (hmem _).mpr (List.mem_cons_of_mem _ (List.mem_cons_of_mem _
        (List.mem_cons_of_mem _ (List.mem_cons_of_mem _ (List.mem_cons_self _ _))))),
        h.symm⟩

theorem no_recognized_iff_counts (E : PcpArcTypeEnum) (arcs : List PcpArcType) :
    (∀ a ∈ arcs, ¬ isRecognizedArcType E a) ↔
      ∀ t ∈ arcTypesAscending E, arcs.count t.1 = 0 := by
  constructor
  · intro h t ht
    rw [List.count_eq_zero]
    intro hmem
    exact h t.1 hmem ((mem_arcTypesAscending E t.1).mp ⟨t, ht, rfl⟩)
  · intro h a ha hrec
    obtain ⟨t, ht, hta⟩ := (mem_arcTypesAscending E a).mpr hrec
    have := h t ht
    rw [List.count_eq_zero, hta] at this
    exact this ha

theorem tooltipOfCounts_congr (E : PcpArcTypeEnum) (arcs arcs' : List PcpArcType)
    (h : ∀ a, isRecognizedArcType E a → arcs.count a = arcs'.count a) :
    tooltipOfCounts E arcs = tooltipOfCounts E arcs' := by
  have hc : ∀ t ∈ arcTypesAscending E, arcs.count t.1 = arcs'.count t.1 :=
    fun t ht => h t.1 ((mem_arcTypesAscending E t.1).mp ⟨t, ht, rfl⟩)
  have hs := shownEntries_congr arcs arcs' (arcTypesAscending E) hc
  unfold shownEntries at hs
  unfold tooltipOfCounts
  rw [hs]
  have hz : (∀ t ∈ arcTypesAscending E, arcs.count t.1 = 0) ↔
      (∀ t ∈ arcTypesAscending E, arcs'.count t.1 = 0) :=
    ⟨fun hz t ht => (hc t ht) ▸ hz t ht, fun hz t ht => (hc t ht).symm ▸ hz t ht⟩
  by_cases h0 : ∀ t ∈ arcTypesAscending E, arcs.count t.1 = 0
  · rw [if_pos h0, if_pos (hz.mp h0)]
  · rw [if_neg h0, if_neg (fun h' => h0 (hz.mpr h'))]

theorem treeViewTooltip_eq_tooltipOfCounts (E : PcpArcTypeEnum) (hE : E.Distinct)
    (nodeType : String) (arcs : List PcpArcType) :
    treeViewTooltip E (some (.usd nodeType arcs)) = tooltipOfCounts E arcs := by
  rw [treeViewTooltip_usd, arcTypeStrings_eq_ascending E hE]
  unfold tooltipOfCounts shownEntries
  by_cases h : ∀ a ∈ arcs, ¬ isRecognizedArcType E a
  · rw [if_pos h, if_pos ((no_recognized_iff_counts E arcs).mp h)]
  · rw [if_neg h, if_neg (fun h' => h ((no_recognized_iff_counts E arcs).mpr h'))]

theorem header_append_ne_empty (x : String) : "<b>Composition Arcs:</b> " ++ x ≠ "" := by
  intro h
  have := congrArg String.length h
  rw [String.length_append] at this
  have h2 : "<b>Composition Arcs:</b> ".length = 25 := by decide
  rw [h2] at this
  simp at this

theorem treeViewTooltip_ne_empty_iff (E : PcpArcTypeEnum) (nodeType : String)
    (arcs : List PcpArcType) :
    treeViewTooltip E (some (.usd nodeType arcs)) ≠ "" ↔
      ∃ a ∈ arcs, isRecognizedArcType E a := by
  rw [treeViewTooltip_usd]
  by_cases h : ∀ a ∈ arcs, ¬ isRecognizedArcType E a
  · rw [if_pos h]
    constructor
    · intro h'; exact absurd rfl h'
    · rintro ⟨a, ha, hr⟩; exact absurd hr (h a ha)
  · rw [if_neg h]
    constructor
    · intro _; push_neg at h; exact h
    · intro _; exact header_append_ne_empty _

theorem recognized_iff (E : PcpArcTypeEnum) (a : PcpArcType) :
    isRecognizedArcType E a ↔ isCompArcBadgeType E a ∨ a = E.PcpArcTypeVariant := by
  unfold isRecognizedArcType isCompArcBadgeType
  tauto

theorem badgeLoop_badge_ne_empty (E : PcpArcTypeEnum) (q : Quadrants Q)
    (arcs : List PcpArcType) (icon : Icon Q) :
    (treeViewIcon.badgeLoop E q arcs icon).badgeIcon ≠ "" ↔
      icon.badgeIcon ≠ "" ∨ ∃ a ∈ arcs, isRecognizedArcType E a := by
  induction arcs generalizing icon with
  | nil => simp [treeViewIcon.badgeLoop]
  | cons a rest ih =>
    unfold treeViewIcon.badgeLoop
    by_cases ha : isCompArcBadgeType E a
    · rw [if_pos ha, ih]
      have hr : isRecognizedArcType E a := (recognized_iff E a).mpr (Or.inl ha)
      constructor
      · intro _; exact Or.inr ⟨a, List.mem_cons_self _ _, hr⟩
      · intro _
        refine Or.inl ?_
        show "out_USD_CompArcBadge.png" ≠ ""
        decide
    · rw [if_neg ha]
      by_cases hav : a = E.PcpArcTypeVariant
      · rw [if_pos hav]
        have hr : isRecognizedArcType E a := (recognized_iff E a).mpr (Or.inr hav)
        constructor
        · intro _; exact Or.inr ⟨a, List.mem_cons_self _ _, hr⟩
        · intro _; show "out_USD_CompArcBadgeV.png" ≠ ""; decide
      · rw [if_neg hav, ih]
        have hnr : ¬ isRecognizedArcType E a := by
          rw [recognized_iff]; push_neg; exact ⟨ha, hav⟩
        simp only [List.mem_cons, exists_eq_or_imp, hnr, false_or]

theorem badgeLoop_pos (E : PcpArcTypeEnum) (q : Quadrants Q)
    (arcs : List PcpArcType) (icon : Icon Q)
    (hicon : icon.badgeIcon ≠ "" → icon.pos = q.LowerRight) :
    (treeViewIcon.badgeLoop E q arcs icon).badgeIcon ≠ "" →
      (treeViewIcon.badgeLoop E q arcs icon).pos = q.LowerRight := by
  induction arcs generalizing icon with
  | nil => simpa [treeViewIcon.badgeLoop] using hicon
  | cons a rest ih =>
    unfold treeViewIcon.badgeLoop
    split_ifs with h1 h2
    · exact ih _ (fun _ => rfl)
    · exact fun _ => rfl
    · exact ih _ hicon

theorem treeViewIcon_usd (E : PcpArcTypeEnum) (q : Quadrants Q) (nodeType : String)
    (arcs : List PcpArcType) :
    treeViewIcon E q (some (.usd nodeType arcs)) =
      treeViewIcon.badgeLoop E q arcs
        { baseIcon := treeViewIcon_pre2023 (some (.usd nodeType arcs)),
          badgeIcon := "", pos := q.default } := by
  unfold treeViewIcon treeViewIcon_pre2023
  simp only [SceneItem.usdCompositionArcs, SceneItem.nodeType, Icon.empty]
  cases StdMap.find supportedTypes nodeType <;> rfl

theorem badgeLoop_baseIcon (E : PcpArcTypeEnum) (q : Quadrants Q)
    (arcs : List PcpArcType) (icon : Icon Q) :
    (treeViewIcon.badgeLoop E q arcs icon).baseIcon = icon.baseIcon := by
  induction arcs generalizing icon with
  | nil => rfl
  | cons a rest ih =>
    unfold treeViewIcon.badgeLoop
    split_ifs
    · rw [ih]
    · rfl
    · rw [ih]

theorem find_of_mem_keys {α β : Type} [DecidableEq α] (m : List (α × β)) (k : α) :
    StdMap.find m k = none ↔ k ∉ m.map Prod.fst := by
  induction m with
  | nil => simp [StdMap.find]
  | cons e es ih =>
    unfold StdMap.find
    by_cases h : e.1 = k
    · simp [h]
    · simp only [if_neg h, ih, List.map_cons, List.mem_cons, not_or]
      exact ⟨fun h' => ⟨fun hk => h hk.symm, h'⟩, fun h' => h'.2⟩

end UIInfoLemmas

/-! ### The icon, the badge and the tooltip -/

/-- C6: with `UFE_PREVIEW_VERSION_NUM >= 2023`, for a USD scene item with any node type and
any list of composition arcs, the badge of `treeViewIcon` is `out_USD_CompArcBadgeV.png`
when the list has a variant arc, otherwise `out_USD_CompArcBadge.png` when it has a
reference, payload, inherit or specialize arc, otherwise empty; the icon is the same for
every reordering of the arcs; and a badge that is set sits at `LowerRight`. -/
theorem treeViewIcon_badge (E : PcpArcTypeEnum) (hE : E.Distinct) {Q : Type}
    (q : Quadrants Q) (nodeType : String) (arcs : List PcpArcType) :
    (treeViewIcon E q (some (.usd nodeType arcs))).badgeIcon = badgeOfArcs E arcs
    ∧ (∀ arcs', arcs.Perm arcs' →
        treeViewIcon E q (some (.usd nodeType arcs')) =
          treeViewIcon E q (some (.usd nodeType arcs)))
    ∧ ((treeViewIcon E q (some (.usd nodeType arcs))).badgeIcon ≠ "" →
        (treeViewIcon E q (some (.usd nodeType arcs))).pos = q.LowerRight) := by
  refine ⟨?_, ?_, ?_⟩
  · rw [treeViewIcon_usd, badgeLoop_eq E hE]
    unfold badgeOfArcs
    by_cases hv : E.PcpArcTypeVariant ∈ arcs
    · rw [if_pos hv, if_pos hv]
    · rw [if_neg hv, if_neg hv]
      by_cases hc : ∃ a ∈ arcs, isCompArcBadgeType E a
      · rw [if_pos hc]
        unfold isCompArcBadgeType at hc
        rw [if_pos hc]
      · rw [if_neg hc]
        unfold isCompArcBadgeType at hc
        rw [if_neg hc]
  · intro arcs' hp
    rw [treeViewIcon_usd, treeViewIcon_usd, badgeLoop_eq E hE, badgeLoop_eq E hE]
    have h1 : E.PcpArcTypeVariant ∈ arcs' ↔ E.PcpArcTypeVariant ∈ arcs := hp.symm.mem_iff
    have h2 : (∃ a ∈ arcs', isCompArcBadgeType E a) ↔ ∃ a ∈ arcs, isCompArcBadgeType E a :=
      ⟨fun ⟨a, ha, h⟩ => ⟨a, hp.symm.mem_iff.mp ha, h⟩,
        fun ⟨a, ha, h⟩ => ⟨a, hp.mem_iff.mp ha, h⟩⟩
    have h3 : treeViewIcon_pre2023 (some (.usd nodeType arcs')) =
        treeViewIcon_pre2023 (some (.usd nodeType arcs)) := rfl
    simp only [h1, h2, h3]
  · rw [treeViewIcon_usd]
    exact badgeLoop_pos E q arcs _ (fun h => absurd rfl h)

/-- C6, at the arc type values of USD: an item with a reference, a variant and a payload arc
carries the variant badge. -/
theorem treeViewIcon_badge_witness :
    usdArcTypes.Distinct ∧
      (treeViewIcon usdArcTypes (Quadrants.mk 0 4) (some (.usd "Mesh" [4, 2, 5]))).badgeIcon =
        "out_USD_CompArcBadgeV.png" :=
  ⟨by decide,
    (treeViewIcon_badge usdArcTypes (by decide) (Quadrants.mk 0 4) "Mesh" [4, 2, 5]).1.trans
      (by decide)⟩

/-- C7: the base icon of `treeViewIcon` is `out_USD_UsdTyped.png` for a null item; for an
item whose node type is one of the 22 keys of `supportedTypes` (the empty string, mapped to
`out_USD_Def.png`, and `AL_MayaReference`, mapped to the icon of `mayaReference`, among
them) it is the icon mapped to the key; for any other node type it is empty; and the variant
before UFE 2023 returns, for every item, the base icon of the variant from 2023 on. -/
theorem treeViewIcon_baseIcon :
    treeViewIcon_pre2023 none = "out_USD_UsdTyped.png"
    ∧ (supportedTypes.map Prod.fst).length = 22
    ∧ (supportedTypes.map Prod.fst).Nodup
    ∧ StdMap.find supportedTypes "" = some "out_USD_Def.png"
    ∧ StdMap.find supportedTypes "AL_MayaReference" = some "out_USD_mayaReference.png"
    ∧ StdMap.find supportedTypes "mayaReference" = some "out_USD_mayaReference.png"
    ∧ (∀ item : SceneItem, ∀ e ∈ supportedTypes, item.nodeType = e.1 →
        treeViewIcon_pre2023 (some item) = e.2)
    ∧ (∀ item : SceneItem, item.nodeType ∉ supportedTypes.map Prod.fst →
        treeViewIcon_pre2023 (some item) = "")
    ∧ (∀ (E : PcpArcTypeEnum) (Q : Type) (q : Quadrants Q) (item : Option SceneItem),
        (treeViewIcon E q item).baseIcon = treeViewIcon_pre2023 item) := by
  refine ⟨rfl, by decide, by decide, by decide, by decide, by decide, ?_, ?_, ?_⟩
  · intro item e he hk
    have hfind : ∀ e ∈ supportedTypes, StdMap.find supportedTypes e.1 = some e.2 := by
      decide
    unfold treeViewIcon_pre2023
    simp only [hk, hfind e he]
  · intro item hk
    unfold treeViewIcon_pre2023
    simp only [(find_of_mem_keys supportedTypes item.nodeType).mpr hk]
  · intro E Q q item
    cases item with
    | none => rfl
    | some item =>
      cases item with
      | usd nodeType arcs => rw [treeViewIcon_usd, badgeLoop_baseIcon]
      | other nodeType =>
        unfold treeViewIcon treeViewIcon_pre2023
        simp only [SceneItem.usdCompositionArcs, SceneItem.nodeType, Icon.empty]
        cases StdMap.find supportedTypes nodeType <;> rfl

/-- C8: for a USD scene item `treeViewTooltip` is the tooltip of the counts of its arcs of
the five types: empty when all five counts are zero, otherwise `<b>Composition Arcs:</b> `
followed by the entries of the types with a count of at least one, joined by `, `, in the
key order of `arcTypeStrings`, which is the ascending order of the arc type values, each
entry the singular name for a count of one and the count, a space and the plural name for
more. The tooltip is empty for a null item and for an item that is no USD scene item, and
two lists of arcs with the same five counts (a reordering, or arcs of other types added or
removed) give one tooltip. -/
theorem treeViewTooltip_spec (E : PcpArcTypeEnum) (hE : E.Distinct) :
    (∀ nodeType arcs, treeViewTooltip E (some (.usd nodeType arcs)) = tooltipOfCounts E arcs)
    ∧ treeViewTooltip E none = ""
    ∧ (∀ nodeType, treeViewTooltip E (some (.other nodeType)) = "")
    ∧ arcTypeStrings E = arcTypesAscending E
    ∧ ((arcTypeStrings E).map Prod.fst).Sorted (· < ·)
    ∧ (∀ nodeType arcs arcs',
        (∀ a, isRecognizedArcType E a → arcs.count a = arcs'.count a) →
        treeViewTooltip E (some (.usd nodeType arcs)) =
          treeViewTooltip E (some (.usd nodeType arcs')))
    ∧ (∀ nodeType arcs arcs', arcs.Perm arcs' →
        treeViewTooltip E (some (.usd nodeType arcs)) =
          treeViewTooltip E (some (.usd nodeType arcs'))) := by
  refine ⟨treeViewTooltip_eq_tooltipOfCounts E hE, rfl, fun _ => rfl,
    arcTypeStrings_eq_ascending E hE, StdMap.ofList_sorted _, ?_, ?_⟩
  · intro nodeType arcs arcs' h
    rw [treeViewTooltip_eq_tooltipOfCounts E hE, treeViewTooltip_eq_tooltipOfCounts E hE]
    exact tooltipOfCounts_congr E arcs arcs' h
  · intro nodeType arcs arcs' hp
    rw [treeViewTooltip_eq_tooltipOfCounts E hE, treeViewTooltip_eq_tooltipOfCounts E hE]
    exact tooltipOfCounts_congr E arcs arcs' (fun a _ => hp.count_eq a)

/-- C8, at the arc type values of USD: two references, a variant and a relocate arc give
the variant entry first (2 comes before 4) and the references counted. -/
theorem treeViewTooltip_spec_witness :
    usdArcTypes.Distinct ∧
      treeViewTooltip usdArcTypes (some (.usd "Xform" [4, 3, 2, 4])) =
        "<b>Composition Arcs:</b> Variant, 2 References" :=
  ⟨by decide,
    ((treeViewTooltip_spec usdArcTypes (by decide)).1 "Xform" [4, 3, 2, 4]).trans
      (by decide)⟩

/-- C9: with `UFE_PREVIEW_VERSION_NUM >= 2023`, for a USD scene item and one list of
composition arcs, the badge of `treeViewIcon` is not empty exactly when `treeViewTooltip` is
not empty, and both exactly when the list has an arc of one of the five recognized types. -/
theorem badge_iff_tooltip (E : PcpArcTypeEnum) {Q : Type} (q : Quadrants Q)
    (nodeType : String) (arcs : List PcpArcType) :
    ((treeViewIcon E q (some (.usd nodeType arcs))).badgeIcon ≠ "" ↔
        treeViewTooltip E (some (.usd nodeType arcs)) ≠ "")
    ∧ ((treeViewIcon E q (some (.usd nodeType arcs))).badgeIcon ≠ "" ↔
        ∃ a ∈ arcs, isRecognizedArcType E a)
    ∧ (treeViewTooltip E (some (.usd nodeType arcs)) ≠ "" ↔
        ∃ a ∈ arcs, isRecognizedArcType E a) := by
  have hb : (treeViewIcon E q (some (.usd nodeType arcs))).badgeIcon ≠ "" ↔
      ∃ a ∈ arcs, isRecognizedArcType E a := by
    rw [treeViewIcon_usd, badgeLoop_badge_ne_empty]
    constructor
    · rintro (h | h)
      · exact absurd rfl h
      · exact h
    · exact Or.inr
  have ht := treeViewTooltip_ne_empty_iff E nodeType arcs
  exact ⟨hb.trans ht.symm, hb, ht⟩

/-! ## Properties of `UsdTRSUndoableCommandBase` -/

section TRSLemmas

variable {S : Type}

theorem Scene.setAttr_attrs (w : Scene S) (a : UsdAttribute) (v : Option (GfVec3 S)) :
    (w.setAttr a v).attrs a = v := by
  simp [Scene.setAttr]

theorem Scene.setAttr_items (w : Scene S) (a : UsdAttribute) (v : Option (GfVec3 S)) :
    (w.setAttr a v).items = w.items := rfl

theorem Scene.setAttr_setAttr (w : Scene S) (a : UsdAttribute) (u v : Option (GfVec3 S)) :
    (w.setAttr a u).setAttr a v = w.setAttr a v := by
  simp [Scene.setAttr, Function.update_idem]

theorem Scene.setAttr_eq_self (w : Scene S) (a : UsdAttribute) (v : Option (GfVec3 S))
    (hv : w.attrs a = v) : w.setAttr a v = w := by
  cases w with
  | mk items attrs =>
    simp only [Scene.setAttr] at hv ⊢
    rw [← hv, Function.update_eq_self]

/-- The hooks keep the scene items: they write attributes only. -/
theorem Hooks.Contract.performImp_eq {h : Hooks S} (hc : h.Contract) (v : GfVec3 S)
    (p : UsdPrim) (w : Scene S)
    (hex : w.attrs (UsdPrim.GetAttribute p h.attributeName) ≠ none) :
    h.performImp v.x v.y v.z p w =
      w.setAttr (UsdPrim.GetAttribute p h.attributeName) (some v) :=
  hc.performImp_writes v.x v.y v.z p w hex

theorem perform_of_initialized {h : Hooks S} (hc : h.Contract) (x y z : S)
    (c : TRSCommand S) (w : Scene S) (hi : Initialized h c w) :
    (perform h x y z c w).report = .done
    ∧ (perform h x y z c w).cmd =
        { c with data := { c.data with
          fNewValue := { x := x, y := y, z := z }, fDoneOnce := true } }
    ∧ (perform h x y z c w).scene =
        w.setAttr (c.data.attribute h.attributeName w.items)
          (some { x := x, y := y, z := z }) := by
  obtain ⟨hs, hinv, hex⟩ := hi
  unfold perform
  simp only [hs, hinv, Bool.false_eq_true, if_false]
  exact ⟨trivial, trivial, hc.performImp_writes x y z _ w hex⟩

theorem performed_of_perform {h : Hooks S} (hc : h.Contract) (x y z : S)
    (c : TRSCommand S) (w : Scene S) (hi : Initialized h c w) :
    Performed h (perform h x y z c w).cmd (perform h x y z c w).scene := by
  obtain ⟨hrep, hcmd, hscene⟩ := perform_of_initialized hc x y z c w hi
  obtain ⟨hs, hinv, hex⟩ := hi
  rw [hcmd, hscene]
  refine ⟨hs, hinv, rfl, ?_⟩
  exact Scene.setAttr_attrs _ _ _

theorem initialized_of_performed {h : Hooks S} {c : TRSCommand S} {w : Scene S}
    (hp : Performed h c w) : Initialized h c w :=
  ⟨hp.1, hp.2.1, by rw [hp.2.2.2]; exact Option.some_ne_none _⟩

theorem performAll_append (h : Hooks S) (l₁ l₂ : List (S × S × S)) (c : TRSCommand S)
    (w : Scene S) :
    performAll h (l₁ ++ l₂) c w =
      performAll h l₂ (performAll h l₁ c w).1 (performAll h l₁ c w).2 := by
  induction l₁ generalizing c w with
  | nil => rfl
  | cons t rest ih =>
    obtain ⟨x, y, z⟩ := t
    show performAll h (rest ++ l₂) (perform h x y z c w).cmd (perform h x y z c w).scene = _
    rw [ih]
    rfl

/-- A run of `perform` calls on an initialized command keeps it initialized, keeps the item,
`fPrevValue` and `fOpAdded`, and changes the scene at the edited attribute only. -/
theorem performAll_initialized {h : Hooks S} (hc : h.Contract) (steps : List (S × S × S))
    (c : TRSCommand S) (w : Scene S) (hi : Initialized h c w) :
    Initialized h (performAll h steps c w).1 (performAll h steps c w).2
    ∧ (performAll h steps c w).1.data.fItem = c.data.fItem
    ∧ (performAll h steps c w).1.data.fPrevValue = c.data.fPrevValue
    ∧ (performAll h steps c w).1.data.fOpAdded = c.data.fOpAdded
    ∧ (performAll h steps c w).2.items = w.items
    ∧ ∃ v, (performAll h steps c w).2 =
        w.setAttr (c.data.attribute h.attributeName w.items) v := by
  induction steps generalizing c w with
  | nil =>
    exact ⟨hi, rfl, rfl, rfl, rfl, _, (Scene.setAttr_eq_self w _ _ rfl).symm⟩
  | cons t rest ih =>
    obtain ⟨x, y, z⟩ := t
    obtain ⟨-, hcmd, hscene⟩ := perform_of_initialized hc x y z c w hi
    have hi1 := initialized_of_performed (performed_of_perform hc x y z c w hi)
    obtain ⟨h1, h2, h3, h4, h5, v, h6⟩ := ih _ _ hi1
    simp only [performAll]
    refine ⟨h1, ?_, ?_, ?_, ?_, v, ?_⟩
    · rw [h2, hcmd]
    · rw [h3, hcmd]
    · rw [h4, hcmd]
    · rw [h5, hscene]; rfl
    · rw [h6, hscene, hcmd]
      exact Scene.setAttr_setAttr _ _ _ _

/-- `undoImp()` on a performed command, and `redoImp()` after it. -/
theorem undo_redo_of_performed {h : Hooks S} (hc : h.Contract) (c : TRSCommand S)
    (w : Scene S) (hp : Performed h c w) :
    (undoImp h c w).report = .done
    ∧ (undoImp h c w).cmd = c
    ∧ (undoImp h c w).scene =
        w.setAttr (c.data.attribute h.attributeName w.items)
          (if c.data.fOpAdded then none else some c.data.fPrevValue)
    ∧ (redoImp h (undoImp h c w).cmd (undoImp h c w).scene).report = .done
    ∧ (redoImp h (undoImp h c w).cmd (undoImp h c w).scene).cmd = c
    ∧ (redoImp h (undoImp h c w).cmd (undoImp h c w).scene).scene = w := by
  obtain ⟨hs, hinv, hdone, hval⟩ := hp
  have hex : w.attrs (UsdPrim.GetAttribute (c.data.prim w.items) h.attributeName) ≠ none := by
    intro hnone
    unfold UsdTRSUndoableCommandBase.attribute at hval
    rw [hval] at hnone
    exact Option.some_ne_none _ hnone
  have hundo : undoImp h c w =
      { report := .done, cmd := c,
        scene := w.setAttr (c.data.attribute h.attributeName w.items)
          (if c.data.fOpAdded then none else some c.data.fPrevValue) } := by
    unfold undoImp
    simp only [hs, hinv, hdone, Bool.false_eq_true, if_false, not_true_eq_false]
    by_cases hadd : c.data.fOpAdded = true
    · simp only [hadd, if_true, operatorCall]
    · simp only [hadd, if_false, Bool.false_eq_true]
      rw [hc.performImp_eq c.data.fPrevValue _ w hex]
      rfl
  rw [hundo]
  refine ⟨rfl, rfl, rfl, ?_⟩
  unfold redoImp
  simp only [hs, hinv, hdone, Bool.false_eq_true, if_false, not_true_eq_false,
    Scene.setAttr_items]
  refine ⟨trivial, trivial, ?_⟩
  by_cases hadd : c.data.fOpAdded = true
  · simp only [hadd, if_true]
    have hnone : (w.setAttr (c.data.attribute h.attributeName w.items) none).attrs
        (UsdPrim.GetAttribute (c.data.prim w.items) h.attributeName) = none :=
      Scene.setAttr_attrs _ _ _
    obtain ⟨d, hd⟩ := hc.addEmptyAttribute_creates _ _ hnone
    rw [hd]
    have hex2 : ((w.setAttr (c.data.attribute h.attributeName w.items) none).setAttr
        (UsdPrim.GetAttribute (c.data.prim w.items) h.attributeName) (some d)).attrs
        (UsdPrim.GetAttribute (c.data.prim w.items) h.attributeName) ≠ none := by
      rw [Scene.setAttr_attrs]; exact Option.some_ne_none _
    rw [hc.performImp_eq c.data.fNewValue _ _ hex2]
    unfold UsdTRSUndoableCommandBase.attribute
    rw [Scene.setAttr_setAttr, Scene.setAttr_setAttr]
    exact Scene.setAttr_eq_self _ _ _ hval
  · simp only [hadd, if_false, Bool.false_eq_true]
    have hex2 : (w.setAttr (c.data.attribute h.attributeName w.items)
        (some c.data.fPrevValue)).attrs
        (UsdPrim.GetAttribute (c.data.prim w.items) h.attributeName) ≠ none := by
      unfold UsdTRSUndoableCommandBase.attribute
      rw [Scene.setAttr_attrs]; exact Option.some_ne_none _
    rw [hc.performImp_eq c.data.fNewValue _ _ hex2]
    unfold UsdTRSUndoableCommandBase.attribute
    rw [Scene.setAttr_setAttr]
    exact Scene.setAttr_eq_self _ _ _ hval

theorem undoRedo_of_performed {h : Hooks S} (hc : h.Contract) (n : Nat) (c : TRSCommand S)
    (w : Scene S) (hp : Performed h c w) : undoRedo h n c w = (c, w) := by
  induction n with
  | zero => rfl
  | succ n ih =>
    obtain ⟨-, -, -, -, h5, h6⟩ := undo_redo_of_performed hc c w hp
    simp only [undoRedo, h5, h6, ih]

/-- `initialize()` on a command as constructed, when initialization is not blocked. -/
theorem initializeImp_fresh {h : Hooks S} (hc : h.Contract) (item : UsdSceneItemPtr)
    (prev new : GfVec3 S) (w : Scene S)
    (hinit : h.cannotInit (w.items item).prim w = false) :
    (initializeImp h (TRSCommand.fresh item prev new) w).report = .done
    ∧ Initialized h (initializeImp h (TRSCommand.fresh item prev new) w).cmd
        (initializeImp h (TRSCommand.fresh item prev new) w).scene
    ∧ (initializeImp h (TRSCommand.fresh item prev new) w).cmd.data.fItem = item
    ∧ (initializeImp h (TRSCommand.fresh item prev new) w).scene.items = w.items
    ∧ (∀ V, w.attrs (UsdPrim.GetAttribute (w.items item).prim h.attributeName) = some V →
        (initializeImp h (TRSCommand.fresh item prev new) w).scene = w
        ∧ (initializeImp h (TRSCommand.fresh item prev new) w).cmd.data.fPrevValue = V
        ∧ (initializeImp h (TRSCommand.fresh item prev new) w).cmd.data.fOpAdded = false)
    ∧ (w.attrs (UsdPrim.GetAttribute (w.items item).prim h.attributeName) = none →
        (initializeImp h (TRSCommand.fresh item prev new) w).scene =
          h.addEmptyAttribute (w.items item).prim w
        ∧ (∃ d, (initializeImp h (TRSCommand.fresh item prev new) w).scene =
            w.setAttr (UsdPrim.GetAttribute (w.items item).prim h.attributeName) (some d))
        ∧ (initializeImp h (TRSCommand.fresh item prev new) w).cmd.data.fOpAdded = true) := by
  cases hv : w.attrs (UsdPrim.GetAttribute (w.items item).prim h.attributeName) with
  | none =>
    obtain ⟨d, hd⟩ := hc.addEmptyAttribute_creates _ _ hv
    have hinitEq : initializeImp h (TRSCommand.fresh item prev new) w =
        { report := .done,
          cmd := { data := { fItem := item, fPrevValue := d, fNewValue := new,
                             fOpAdded := true, fDoneOnce := false } },
          scene := w.setAttr (UsdPrim.GetAttribute (w.items item).prim h.attributeName)
            (some d) } := by
      unfold initializeImp
      simp only [TRSCommand.fresh, UsdTRSUndoableCommandBase.prim,
        UsdTRSUndoableCommandBase.attribute, hinit, Bool.false_eq_true, if_false, hv,
        Option.isNone_none, if_true, hd, Scene.setAttr_items, Scene.setAttr_attrs,
        Bool.or_true]
    rw [hinitEq]
    refine ⟨rfl, ⟨rfl, rfl, ?_⟩, rfl, rfl, ?_, ?_⟩
    · show (w.setAttr _ (some d)).attrs _ ≠ none
      rw [Scene.setAttr_items]
      exact fun hn => Option.some_ne_none d ((Scene.setAttr_attrs _ _ _).symm.trans hn)
    · intro V hV; exact absurd hV (Option.some_ne_none V).symm
    · intro _; exact ⟨hd.symm, ⟨d, rfl⟩, rfl⟩
  | some V =>
    have hinitEq : initializeImp h (TRSCommand.fresh item prev new) w =
        { report := .done,
          cmd := { data := { fItem := item, fPrevValue := V, fNewValue := new,
                             fOpAdded := false, fDoneOnce := false } },
          scene := w } := by
      unfold initializeImp
      simp only [TRSCommand.fresh, UsdTRSUndoableCommandBase.prim,
        UsdTRSUndoableCommandBase.attribute, hinit, Bool.false_eq_true, if_false, hv,
        Option.isNone_some, Bool.or_false]
    rw [hinitEq]
    refine ⟨rfl, ⟨rfl, rfl, ?_⟩, rfl, rfl, ?_, ?_⟩
    · show w.attrs _ ≠ none
      exact fun hn => Option.some_ne_none V (hv.symm.trans hn)
    · intro V' hV'
      exact ⟨rfl, Option.some.inj hV', rfl⟩
    · intro hn; exact absurd hn (Option.some_ne_none V)

/-- The command and the scene after `initialize()`, any `perform` calls and a last
`perform(x, y, z)`, on a command as constructed whose initialization is not blocked. -/
theorem initializeThenPerform_last {h : Hooks S} (hc : h.Contract) (item : UsdSceneItemPtr)
    (prev new : GfVec3 S) (w : Scene S)
    (hinit : h.cannotInit (w.items item).prim w = false)
    (earlier : List (S × S × S)) (x y z : S) :
    Performed h
        (initializeThenPerform h (earlier ++ [(x, y, z)]) (TRSCommand.fresh item prev new) w).1
        (initializeThenPerform h (earlier ++ [(x, y, z)]) (TRSCommand.fresh item prev new) w).2
    ∧ (initializeThenPerform h (earlier ++ [(x, y, z)])
        (TRSCommand.fresh item prev new) w).1.data.fNewValue = { x := x, y := y, z := z }
    ∧ (initializeThenPerform h (earlier ++ [(x, y, z)])
        (TRSCommand.fresh item prev new) w).1.data.fItem = item
    ∧ (initializeThenPerform h (earlier ++ [(x, y, z)])
        (TRSCommand.fresh item prev new) w).2 =
          w.setAttr (UsdPrim.GetAttribute (w.items item).prim h.attributeName)
            (some { x := x, y := y, z := z })
    ∧ (∀ V, w.attrs (UsdPrim.GetAttribute (w.items item).prim h.attributeName) = some V →
        (initializeThenPerform h (earlier ++ [(x, y, z)])
          (TRSCommand.fresh item prev new) w).1.data.fPrevValue = V
        ∧ (initializeThenPerform h (earlier ++ [(x, y, z)])
          (TRSCommand.fresh item prev new) w).1.data.fOpAdded = false)
    ∧ (w.attrs (UsdPrim.GetAttribute (w.items item).prim h.attributeName) = none →
        (initializeThenPerform h (earlier ++ [(x, y, z)])
          (TRSCommand.fresh item prev new) w).1.data.fOpAdded = true) := by
  obtain ⟨-, hi, hitem, hitems, hpresent, habsent⟩ :=
    initializeImp_fresh hc item prev new w hinit
  generalize ho : initializeImp h (TRSCommand.fresh item prev new) w = o at *
  obtain ⟨hi1, hitem1, hprev1, hadd1, hitems1, v, hscene1⟩ :=
    performAll_initialized hc earlier o.cmd o.scene hi
  have hrun : initializeThenPerform h (earlier ++ [(x, y, z)])
      (TRSCommand.fresh item prev new) w =
      ((perform h x y z (performAll h earlier o.cmd o.scene).1
          (performAll h earlier o.cmd o.scene).2).cmd,
        (perform h x y z (performAll h earlier o.cmd o.scene).1
          (performAll h earlier o.cmd o.scene).2).scene) := by
    unfold initializeThenPerform
    rw [ho, performAll_append]
    rfl
  generalize hr : performAll h earlier o.cmd o.scene = r at *
  obtain ⟨-, hcmd, hscene⟩ := perform_of_initialized hc x y z r.1 r.2 hi1
  have hperf := performed_of_perform hc x y z r.1 r.2 hi1
  have hattr : r.1.data.attribute h.attributeName r.2.items =
      UsdPrim.GetAttribute (w.items item).prim h.attributeName := by
    unfold UsdTRSUndoableCommandBase.attribute UsdTRSUndoableCommandBase.prim
    rw [hitem1, hitems1, hitem, hitems]
  have hattr0 : o.cmd.data.attribute h.attributeName o.scene.items =
      UsdPrim.GetAttribute (w.items item).prim h.attributeName := by
    unfold UsdTRSUndoableCommandBase.attribute UsdTRSUndoableCommandBase.prim
    rw [hitem, hitems]
  rw [hrun]
  refine ⟨hperf, ?_, ?_, ?_, ?_, ?_⟩
  · rw [hcmd]
  · rw [hcmd]; exact hitem1.trans hitem
  · show (perform h x y z r.1 r.2).scene = _
    rw [hscene, hattr, hscene1, hattr0, Scene.setAttr_setAttr]
    cases hv : w.attrs (UsdPrim.GetAttribute (w.items item).prim h.attributeName) with
    | none =>
      obtain ⟨-, ⟨d, hd⟩, -⟩ := habsent hv
      rw [hd, Scene.setAttr_setAttr]
    | some V =>
      obtain ⟨hw, -, -⟩ := hpresent V hv
      rw [hw]
  · intro V hV
    obtain ⟨-, hp, ha⟩ := hpresent V hV
    rw [hcmd]
    exact ⟨hprev1.trans hp, hadd1.trans ha⟩
  · intro hn
    obtain ⟨-, -, ha⟩ := habsent hn
    rw [hcmd]
    exact hadd1.trans ha

theorem translateHooks_contract : translateHooks.Contract :=
  { performImp_writes := fun _ _ _ _ _ _ => rfl
    addEmptyAttribute_creates := fun _ _ _ => ⟨_, rfl⟩ }

end TRSLemmas

/-! ### The lifecycle of the command -/

/-- C1: for a command as constructed, on a node whose edited attribute is absent and whose
initialization is not blocked, `initialize()` creates the attribute through
`addEmptyAttribute` and sets `fOpAdded`; and after one `perform(x, y, z)`, `undoImp()`
removes the attribute, which leaves the scene as it was before `initialize()`. -/
theorem initialize_undo_removes_created {S : Type} (h : Hooks S) (hc : h.Contract)
    (item : UsdSceneItemPtr) (prev new : GfVec3 S) (w : Scene S)
    (hinit : h.cannotInit (w.items item).prim w = false)
    (habsent : w.attrs (UsdPrim.GetAttribute (w.items item).prim h.attributeName) = none) :
    (initializeImp h (TRSCommand.fresh item prev new) w).scene =
        h.addEmptyAttribute (w.items item).prim w
    ∧ (initializeImp h (TRSCommand.fresh item prev new) w).scene.attrs
        (UsdPrim.GetAttribute (w.items item).prim h.attributeName) ≠ none
    ∧ (initializeImp h (TRSCommand.fresh item prev new) w).cmd.data.fOpAdded = true
    ∧ ∀ x y z : S,
        (undoImp h
          (initializeThenPerform h [(x, y, z)] (TRSCommand.fresh item prev new) w).1
          (initializeThenPerform h [(x, y, z)] (TRSCommand.fresh item prev new) w).2).report
            = .done
        ∧ (undoImp h
          (initializeThenPerform h [(x, y, z)] (TRSCommand.fresh item prev new) w).1
          (initializeThenPerform h [(x, y, z)] (TRSCommand.fresh item prev new) w).2).scene.attrs
            (UsdPrim.GetAttribute (w.items item).prim h.attributeName) = none
        ∧ (undoImp h
          (initializeThenPerform h [(x, y, z)] (TRSCommand.fresh item prev new) w).1
          (initializeThenPerform h [(x, y, z)] (TRSCommand.fresh item prev new) w).2).scene
            = w := by
  obtain ⟨-, -, -, -, -, hab⟩ := initializeImp_fresh hc item prev new w hinit
  obtain ⟨hscene, ⟨d, hd⟩, hadd⟩ := hab habsent
  refine ⟨hscene, ?_, hadd, ?_⟩
  · rw [hd, Scene.setAttr_attrs]; exact Option.some_ne_none d
  · intro x y z
    obtain ⟨hperf, -, hitem, hrun, -, hadded⟩ :=
      initializeThenPerform_last hc item prev new w hinit [] x y z
    rw [List.nil_append] at hperf hitem hrun hadded
    obtain ⟨hrep, -, hundo, -⟩ := undo_redo_of_performed hc _ _ hperf
    have hattr : (initializeThenPerform h [(x, y, z)]
        (TRSCommand.fresh item prev new) w).1.data.attribute h.attributeName
        (initializeThenPerform h [(x, y, z)] (TRSCommand.fresh item prev new) w).2.items =
        UsdPrim.GetAttribute (w.items item).prim h.attributeName := by
      unfold UsdTRSUndoableCommandBase.attribute UsdTRSUndoableCommandBase.prim
      rw [hitem, hrun, Scene.setAttr_items]
    have hfinal : (undoImp h
        (initializeThenPerform h [(x, y, z)] (TRSCommand.fresh item prev new) w).1
        (initializeThenPerform h [(x, y, z)] (TRSCommand.fresh item prev new) w).2).scene =
        w.setAttr (UsdPrim.GetAttribute (w.items item).prim h.attributeName) none := by
      rw [hundo, hadded habsent, hattr, hrun, Scene.setAttr_setAttr]
      rfl
    refine ⟨hrep, ?_, ?_⟩
    · rw [hfinal]; exact Scene.setAttr_attrs _ _ _
    · rw [hfinal]; exact Scene.setAttr_eq_self _ _ _ habsent

/-- C1, on the scenario of the spec: the node has no translate attribute, `initialize()`
creates it at (0, 0, 0), and after `perform(5, 0, 0)` the undo leaves the scene without
it. -/
theorem initialize_undo_removes_created_witness :
    emptyScene.attrs exampleAttribute = none
    ∧ (initializeImp translateHooks exampleCommand emptyScene).scene.attrs exampleAttribute =
        some { x := 0, y := 0, z := 0 }
    ∧ (undoImp translateHooks
        (initializeThenPerform translateHooks [(5, 0, 0)] exampleCommand emptyScene).1
        (initializeThenPerform translateHooks [(5, 0, 0)] exampleCommand emptyScene).2).scene
          = emptyScene :=
  ⟨rfl, by decide,
    ((initialize_undo_removes_created translateHooks translateHooks_contract 0
      { x := 0, y := 0, z := 0 } { x := 0, y := 0, z := 0 } emptyScene rfl rfl).2.2.2
        5 0 0).2.2⟩

/-- C2: for a command as constructed, on a node whose edited attribute exists with value `V`
and whose initialization is not blocked, `initialize()` leaves the scene as it is and
captures `V` in `fPrevValue`; no sequence of `perform` calls changes `fPrevValue`; and after
any sequence of `perform` calls that ends with a `perform(x, y, z)`, `undoImp()` leaves the
attribute at `V`, whatever the performed values, and the scene as it was. -/
theorem undo_restores_previous {S : Type} (h : Hooks S) (hc : h.Contract)
    (item : UsdSceneItemPtr) (prev new : GfVec3 S) (w : Scene S) (V : GfVec3 S)
    (hinit : h.cannotInit (w.items item).prim w = false)
    (hpresent : w.attrs (UsdPrim.GetAttribute (w.items item).prim h.attributeName) = some V) :
    (initializeImp h (TRSCommand.fresh item prev new) w).scene = w
    ∧ (initializeImp h (TRSCommand.fresh item prev new) w).cmd.data.fPrevValue = V
    ∧ (∀ steps : List (S × S × S),
        (initializeThenPerform h steps (TRSCommand.fresh item prev new) w).1.data.fPrevValue
          = V)
    ∧ ∀ (earlier : List (S × S × S)) (x y z : S),
        (undoImp h
          (initializeThenPerform h (earlier ++ [(x, y, z)])
            (TRSCommand.fresh item prev new) w).1
          (initializeThenPerform h (earlier ++ [(x, y, z)])
            (TRSCommand.fresh item prev new) w).2).report = .done
        ∧ (undoImp h
          (initializeThenPerform h (earlier ++ [(x, y, z)])
            (TRSCommand.fresh item prev new) w).1
          (initializeThenPerform h (earlier ++ [(x, y, z)])
            (TRSCommand.fresh item prev new) w).2).scene.attrs
            (UsdPrim.GetAttribute (w.items item).prim h.attributeName) = some V
        ∧ (undoImp h
          (initializeThenPerform h (earlier ++ [(x, y, z)])
            (TRSCommand.fresh item prev new) w).1
          (initializeThenPerform h (earlier ++ [(x, y, z)])
            (TRSCommand.fresh item prev new) w).2).scene = w := by
  obtain ⟨-, hi, -, -, hpr, -⟩ := initializeImp_fresh hc item prev new w hinit
  obtain ⟨hscene, hprev, -⟩ := hpr V hpresent
  refine ⟨hscene, hprev, ?_, ?_⟩
  · intro steps
    obtain ⟨-, -, hp, -⟩ := performAll_initialized hc steps _ _ hi
    unfold initializeThenPerform
    exact hp.trans hprev
  · intro earlier x y z
    obtain ⟨hperf, -, hitem, hrun, hpv, -⟩ :=
      initializeThenPerform_last hc item prev new w hinit earlier x y z
    obtain ⟨hpV, hadd⟩ := hpv V hpresent
    obtain ⟨hrep, -, hundo, -⟩ := undo_redo_of_performed hc _ _ hperf
    have hattr : (initializeThenPerform h (earlier ++ [(x, y, z)])
        (TRSCommand.fresh item prev new) w).1.data.attribute h.attributeName
        (initializeThenPerform h (earlier ++ [(x, y, z)])
          (TRSCommand.fresh item prev new) w).2.items =
        UsdPrim.GetAttribute (w.items item).prim h.attributeName := by
      unfold UsdTRSUndoableCommandBase.attribute UsdTRSUndoableCommandBase.prim
      rw [hitem, hrun, Scene.setAttr_items]
    have hfinal : (undoImp h
        (initializeThenPerform h (earlier ++ [(x, y, z)])
          (TRSCommand.fresh item prev new) w).1
        (initializeThenPerform h (earlier ++ [(x, y, z)])
          (TRSCommand.fresh item prev new) w).2).scene =
        w.setAttr (UsdPrim.GetAttribute (w.items item).prim h.attributeName) (some V) := by
      rw [hundo, hadd, hpV, hattr, hrun, Scene.setAttr_setAttr]
      rfl
    refine ⟨hrep, ?_, ?_⟩
    · rw [hfinal]; exact Scene.setAttr_attrs _ _ _
    · rw [hfinal]; exact Scene.setAttr_eq_self _ _ _ hpresent

/-- C2, on the example of the claim: the attribute is at (1, 2, 3); after `perform(1, 0, 0)`
and `perform(2, 0, 0)` it is at (2, 0, 0), and the undo puts it back at (1, 2, 3). -/
theorem undo_restores_previous_witness :
    authoredScene.attrs exampleAttribute = some { x := 1, y := 2, z := 3 }
    ∧ (initializeThenPerform translateHooks [(1, 0, 0), (2, 0, 0)] exampleCommand
        authoredScene).2.attrs exampleAttribute = some { x := 2, y := 0, z := 0 }
    ∧ (undoImp translateHooks
        (initializeThenPerform translateHooks [(1, 0, 0), (2, 0, 0)] exampleCommand
          authoredScene).1
        (initializeThenPerform translateHooks [(1, 0, 0), (2, 0, 0)] exampleCommand
          authoredScene).2).scene.attrs exampleAttribute = some { x := 1, y := 2, z := 3 } :=
  ⟨by decide, by decide,
    ((undo_restores_previous translateHooks translateHooks_contract 0
      { x := 0, y := 0, z := 0 } { x := 0, y := 0, z := 0 } authoredScene
      { x := 1, y := 2, z := 3 } rfl (by decide)).2.2.2 [(1, 0, 0)] 2 0 0).2.1⟩

/-- C3: for a command as constructed whose initialization is not blocked, after
`initialize()` and a sequence of `perform` calls that ends with `perform(x, y, z)`, and for
every `n`, so for every `n ≥ 1`: `undoImp(); redoImp()` run `n` times leaves the command and the scene as they
were before the first `undoImp()`, the attribute holding (x, y, z), the value of the last
`perform`, which is `fNewValue`. When the command created the attribute, `undoImp()` removes
it and `redoImp()` writes the value into the scene in which `addEmptyAttribute` has created
the attribute again. -/
theorem undo_redo_keeps_applied {S : Type} (h : Hooks S) (hc : h.Contract)
    (item : UsdSceneItemPtr) (prev new : GfVec3 S) (w : Scene S)
    (hinit : h.cannotInit (w.items item).prim w = false)
    (earlier : List (S × S × S)) (x y z : S) (n : Nat) :
    undoRedo h n
        (initializeThenPerform h (earlier ++ [(x, y, z)]) (TRSCommand.fresh item prev new) w).1
        (initializeThenPerform h (earlier ++ [(x, y, z)]) (TRSCommand.fresh item prev new) w).2
      = initializeThenPerform h (earlier ++ [(x, y, z)]) (TRSCommand.fresh item prev new) w
    ∧ (initializeThenPerform h (earlier ++ [(x, y, z)])
        (TRSCommand.fresh item prev new) w).1.data.fNewValue = { x := x, y := y, z := z }
    ∧ (initializeThenPerform h (earlier ++ [(x, y, z)])
        (TRSCommand.fresh item prev new) w).2.attrs
          (UsdPrim.GetAttribute (w.items item).prim h.attributeName) =
            some { x := x, y := y, z := z }
    ∧ (undoRedo h n
        (initializeThenPerform h (earlier ++ [(x, y, z)]) (TRSCommand.fresh item prev new) w).1
        (initializeThenPerform h (earlier ++ [(x, y, z)])
          (TRSCommand.fresh item prev new) w).2).2.attrs
          (UsdPrim.GetAttribute (w.items item).prim h.attributeName) =
            some { x := x, y := y, z := z }
    ∧ (w.attrs (UsdPrim.GetAttribute (w.items item).prim h.attributeName) = none →
        (undoImp h
          (initializeThenPerform h (earlier ++ [(x, y, z)])
            (TRSCommand.fresh item prev new) w).1
          (initializeThenPerform h (earlier ++ [(x, y, z)])
            (TRSCommand.fresh item prev new) w).2).scene.attrs
            (UsdPrim.GetAttribute (w.items item).prim h.attributeName) = none
        ∧ (redoImp h
            (undoImp h
              (initializeThenPerform h (earlier ++ [(x, y, z)])
                (TRSCommand.fresh item prev new) w).1
              (initializeThenPerform h (earlier ++ [(x, y, z)])
                (TRSCommand.fresh item prev new) w).2).cmd
            (undoImp h
              (initializeThenPerform h (earlier ++ [(x, y, z)])
                (TRSCommand.fresh item prev new) w).1
              (initializeThenPerform h (earlier ++ [(x, y, z)])
                (TRSCommand.fresh item prev new) w).2).scene).scene =
          h.performImp x y z (w.items item).prim
            (h.addEmptyAttribute (w.items item).prim
              (undoImp h
                (initializeThenPerform h (earlier ++ [(x, y, z)])
                  (TRSCommand.fresh item prev new) w).1
                (initializeThenPerform h (earlier ++ [(x, y, z)])
                  (TRSCommand.fresh item prev new) w).2).scene)) := by
  obtain ⟨hperf, hnew, hitem, hrun, -, hadded⟩ :=
    initializeThenPerform_last hc item prev new w hinit earlier x y z
  have hid := undoRedo_of_performed hc n _ _ hperf
  have hval : (initializeThenPerform h (earlier ++ [(x, y, z)])
      (TRSCommand.fresh item prev new) w).2.attrs
      (UsdPrim.GetAttribute (w.items item).prim h.attributeName) =
        some { x := x, y := y, z := z } := by
    rw [hrun]; exact Scene.setAttr_attrs _ _ _
  refine ⟨hid, hnew, hval, ?_, ?_⟩
  · rw [hid]; exact hval
  · intro habsent
    obtain ⟨-, hucmd, hundo, -⟩ := undo_redo_of_performed hc _ _ hperf
    have hattr : (initializeThenPerform h (earlier ++ [(x, y, z)])
        (TRSCommand.fresh item prev new) w).1.data.attribute h.attributeName
        (initializeThenPerform h (earlier ++ [(x, y, z)])
          (TRSCommand.fresh item prev new) w).2.items =
        UsdPrim.GetAttribute (w.items item).prim h.attributeName := by
      unfold UsdTRSUndoableCommandBase.attribute UsdTRSUndoableCommandBase.prim
      rw [hitem, hrun, Scene.setAttr_items]
    have hprim : (initializeThenPerform h (earlier ++ [(x, y, z)])
        (TRSCommand.fresh item prev new) w).1.data.prim
        (initializeThenPerform h (earlier ++ [(x, y, z)])
          (TRSCommand.fresh item prev new) w).2.items = (w.items item).prim := by
      unfold UsdTRSUndoableCommandBase.prim
      rw [hitem, hrun, Scene.setAttr_items]
    rw [hadded habsent, hattr] at hundo
    refine ⟨?_, ?_⟩
    · rw [hundo]; exact Scene.setAttr_attrs _ _ _
    · rw [hucmd]
      generalize (undoImp h _ _).scene = wu at hundo ⊢
      have hitemsu : wu.items = (initializeThenPerform h (earlier ++ [(x, y, z)])
          (TRSCommand.fresh item prev new) w).2.items := by
        rw [hundo]; rfl
      unfold redoImp
      simp only [hperf.1, hperf.2.1, hperf.2.2.1, hadded habsent, hnew, Bool.false_eq_true,
        if_false, if_true, not_true_eq_false, hitemsu, hprim]

/-- C3, on the scenario of the spec: the node has no translate attribute; after
`initialize()` and `perform(5, 0, 0)` the attribute is at (5, 0, 0), the undo removes it, and
after three rounds of undo and redo it is at (5, 0, 0) again. -/
theorem undo_redo_keeps_applied_witness :
    (undoImp translateHooks
        (initializeThenPerform translateHooks [(5, 0, 0)] exampleCommand emptyScene).1
        (initializeThenPerform translateHooks [(5, 0, 0)] exampleCommand emptyScene).2).scene.attrs
          exampleAttribute = none
    ∧ (undoRedo translateHooks 3
        (initializeThenPerform translateHooks [(5, 0, 0)] exampleCommand emptyScene).1
        (initializeThenPerform translateHooks [(5, 0, 0)] exampleCommand emptyScene).2).2.attrs
          exampleAttribute = some { x := 5, y := 0, z := 0 } :=
  ⟨by decide,
    (undo_redo_keeps_applied translateHooks translateHooks_contract 0
      { x := 0, y := 0, z := 0 } { x := 0, y := 0, z := 0 } emptyScene rfl [] 5 0 0
      3).2.2.2.1⟩

/-- C5: the command stores the scene item and, beside it, two values and two flags: it is
its five data members. At every call `prim()` is the prim and `path()` the path that the
item has in the scene of that call, and `attribute()` is the attribute of the name
`attributeName()` on that prim; so when the item has another prim or path at a later call,
the later call returns those, and two commands that store one item return the same. -/
theorem accessors_resolve_current {S : Type} (c : UsdTRSUndoableCommandBase S)
    (attributeName : TfToken) :
    c = { fItem := c.fItem, fPrevValue := c.fPrevValue, fNewValue := c.fNewValue,
          fOpAdded := c.fOpAdded, fDoneOnce := c.fDoneOnce }
    ∧ (∀ items : UsdSceneItemPtr → UsdSceneItem,
        c.prim items = (items c.fItem).prim
        ∧ c.path items = (items c.fItem).path
        ∧ c.attribute attributeName items =
            UsdPrim.GetAttribute (items c.fItem).prim attributeName)
    ∧ (∀ (items : UsdSceneItemPtr → UsdSceneItem) (later : UsdSceneItem),
        c.prim (Function.update items c.fItem later) = later.prim
        ∧ c.path (Function.update items c.fItem later) = later.path
        ∧ c.attribute attributeName (Function.update items c.fItem later) =
            UsdPrim.GetAttribute later.prim attributeName)
    ∧ (∀ (c' : UsdTRSUndoableCommandBase S) (items : UsdSceneItemPtr → UsdSceneItem),
        c'.fItem = c.fItem →
        c'.prim items = c.prim items ∧ c'.path items = c.path items
        ∧ c'.attribute attributeName items = c.attribute attributeName items) := by
  refine ⟨rfl, fun items => ⟨rfl, rfl, rfl⟩, fun items later => ?_, fun c' items hc' => ?_⟩
  · simp [UsdTRSUndoableCommandBase.prim, UsdTRSUndoableCommandBase.path,
      UsdTRSUndoableCommandBase.attribute]
  · simp [UsdTRSUndoableCommandBase.prim, UsdTRSUndoableCommandBase.path,
      UsdTRSUndoableCommandBase.attribute, hc']

end ufe
end MayaUsd
